import Mathlib

/-!
Verification development for the MTG-Decks repository.

The Python modules under src/mtg_decks are shallowly embedded below:
pure text transforms become Lean functions over String (with the character
list String.data used for structural recursion), Python dicts with
insertion order become association lists, Python sets become lists with
set-like insertion, and fallible operations return Except or Option.
Python str.casefold and str.lower are both modelled as character-wise
Char.toLower (ASCII-faithful), str.strip as trimming the characters of
Python str.isspace from both ends, and str.splitlines as splitting at
the line-break characters of Python str.splitlines, with a carriage
return followed by a newline counting as a single break and no trailing
empty line.
-/

/-! ## Character list utilities (models of Python str methods) -/

/-- The characters Python str.isspace accepts, which str.strip removes
from both ends and str.split (without a separator) splits on: the ASCII
whitespace and separator controls, next line, no-break space, and the
Unicode space, line and paragraph separators. -/
def pyWs (c : Char) : Bool :=
  c = ' ' || c = '\t' || c = '\n' || c = '\x0b' || c = '\x0c' || c = '\r'
  || c = '\x1c' || c = '\x1d' || c = '\x1e' || c = '\x1f'
  || c = '\x85' || c = '\xa0' || c = '\u1680'
  || (0x2000 ≤ c.toNat && c.toNat ≤ 0x200a)
  || c = '\u2028' || c = '\u2029' || c = '\u202f' || c = '\u205f' || c = '\u3000'

/-- The line-break characters of Python str.splitlines: newline,
carriage return, vertical tab, form feed, the file/group/record
separator controls, next line, and the Unicode line and paragraph
separators. -/
def pyBrk (c : Char) : Bool :=
  c = '\n' || c = '\r' || c = '\x0b' || c = '\x0c'
  || c = '\x1c' || c = '\x1d' || c = '\x1e' || c = '\x85'
  || c = '\u2028' || c = '\u2029'

/-- Model of Python str.strip on a character list: drop whitespace from
both ends. -/
def pyStripL (l : List Char) : List Char :=
  ((l.dropWhile pyWs).reverse.dropWhile pyWs).reverse

/-- Model of Python str.strip. -/
def pyStrip (s : String) : String := ⟨pyStripL s.data⟩

/-- Split a character list on a separator character; always returns at
least one (possibly empty) piece, like Python str.split with one
separator. -/
def splitOnChar (c : Char) : List Char → List (List Char)
  | [] => [[]]
  | x :: r =>
    if x = c then [] :: splitOnChar c r
    else
      match splitOnChar c r with
      | [] => [[x]]
      | h :: t => (x :: h) :: t

/-- The line scanner of Python str.splitlines: cut the accumulated line
at every line-break character, treating a carriage return immediately
followed by a newline as a single break, and emit no trailing empty
line. -/
def splitlinesAux : List Char → List Char → Bool → List (List Char)
  | [], acc, _ => if acc = [] then [] else [acc.reverse]
  | c :: r, acc, afterCR =>
    if afterCR ∧ c = '\n' then splitlinesAux r [] false
    else if c = '\r' then acc.reverse :: splitlinesAux r [] true
    else if pyBrk c then acc.reverse :: splitlinesAux r [] false
    else splitlinesAux r (c :: acc) false

/-- Model of Python str.splitlines. -/
def pySplitlines (s : String) : List String :=
  (splitlinesAux s.data [] false).map (fun d => (⟨d⟩ : String))

/-- The newline-only splitter: split on the newline character alone and
drop a final empty piece.  On text whose only line-break character is
the newline this agrees with pySplitlines (proved below), and it is the
shape the front-matter analysis works with. -/
def nlSplitlines (s : String) : List String :=
  let l := (splitOnChar '\n' s.data).map (fun d => (⟨d⟩ : String))
  if l.getLast? = some "" then l.dropLast else l

/-- Model of Python str.lower and str.casefold (character-wise lowering,
faithful on ASCII). -/
def pyLower (s : String) : String := ⟨s.data.map Char.toLower⟩

/-- Model of Python str.upper (character-wise, faithful on ASCII). -/
def pyUpper (s : String) : String := ⟨s.data.map Char.toUpper⟩

/-- Model of Python str.startswith. -/
def pyStartsWith (s t : String) : Bool := t.data.isPrefixOf s.data

/-- The numeric value of a digit run, as computed by Python int() on a
string of decimal digits. -/
def natOfDigits (l : List Char) : Nat :=
  l.foldl (fun a c => a * 10 + (c.toNat - 48)) 0

/-- Model of Python str.isdigit restricted to ASCII decimal digits:
nonempty and all digits. -/
def pyIsDigit (s : String) : Bool := s.data ≠ [] && s.data.all Char.isDigit

def digitChar (n : Nat) : Char := Char.ofNat (48 + n)

def natReprAux (n : Nat) (acc : List Char) : List Char :=
  if h : n < 10 then digitChar n :: acc
  else natReprAux (n / 10) (digitChar (n % 10) :: acc)
  termination_by n
  decreasing_by
    exact Nat.div_lt_self (Nat.lt_of_lt_of_le (by norm_num) (Nat.le_of_not_lt h)) (by norm_num)

/-- Decimal rendering of a natural number, as Python str() interpolates
integers into f-strings. -/
def natRepr (n : Nat) : String := ⟨natReprAux n []⟩

/-- Join a list of character lists with a separator, as Python
str.join does. -/
def intercalateC (sep : List Char) : List (List Char) → List Char
  | [] => []
  | [x] => x
  | x :: y :: t => x ++ sep ++ intercalateC sep (y :: t)

/-- Python "\n".join over strings. -/
def joinLines (ls : List String) : String :=
  ⟨intercalateC ['\n'] (ls.map String.data)⟩

/-- Python ", ".join over strings. -/
def joinCommaSpace (ls : List String) : String :=
  ⟨intercalateC [',', ' '] (ls.map String.data)⟩

/-- Python ",".join over strings. -/
def joinComma (ls : List String) : String :=
  ⟨intercalateC [','] (ls.map String.data)⟩

/-- Python "; ".join over strings. -/
def joinSemi (ls : List String) : String :=
  ⟨intercalateC [';', ' '] (ls.map String.data)⟩

/-! ## Association lists (Python dict with insertion order) -/

/-- Python dict assignment d[k] = v: overwrite in place or append. -/
def dictSet : List (String × String) → String → String → List (String × String)
  | [], k, v => [(k, v)]
  | (k2, v2) :: r, k, v =>
    if k2 = k then (k2, v) :: r else (k2, v2) :: dictSet r k v

/-- Python dict lookup d.get(k): the binding of the key, if present. -/
def dictGet : List (String × String) → String → Option String
  | [], _ => none
  | (k2, v2) :: r, k => if k2 = k then some v2 else dictGet r k

/-- Python dict counter update d[k] = d.get(k, 0) + v: add to an existing
binding in place or append a new one. -/
def dictAdd : List (String × Nat) → String → Nat → List (String × Nat)
  | [], k, v => [(k, v)]
  | (k2, v2) :: r, k, v =>
    if k2 = k then (k2, v2 + v) :: r else (k2, v2) :: dictAdd r k v

/-- Python d.get(k, 0) on a counts dict. -/
def countOf (m : List (String × Nat)) (k : String) : Nat :=
  match m with
  | [] => 0
  | (k2, v2) :: r => if k2 = k then v2 else countOf r k

/-- Python set insertion, modelled on a duplicate-free list. -/
def setInsert (l : List String) (x : String) : List String :=
  if x ∈ l then l else l ++ [x]

/-! ## mtg_decks.deck — Deck, to_markdown, from_file, slugify -/

/-- The Deck dataclass of src/mtg_decks/deck.py (the filesystem path is
modelled as the filename stem). -/
structure Deck where
  name : String
  commander : String
  colors : List String := []
  theme : Option String := none
  format : String := "Commander"
  created : Option String := none
  updated : Option String := none
  notes : Option String := none
  path : Option String := none
deriving Repr, DecidableEq

def FRONT_MATTER_MARK : String := "---"

/-- The key/value pairs emitted into the front-matter block by
Deck.to_markdown, in emission order: name and commander always, each
optional field only when truthy in Python (nonempty string or nonempty
list). -/
def Deck.frontKVs (d : Deck) : List (String × String) :=
  [("name", d.name), ("commander", d.commander)]
  ++ (if d.colors ≠ [] then [("colors", joinCommaSpace d.colors)] else [])
  ++ (match d.theme with
      | some t => if t ≠ "" then [("theme", t)] else []
      | none => [])
  ++ (if d.format ≠ "" then [("format", d.format)] else [])
  ++ (match d.created with
      | some t => if t ≠ "" then [("created", t)] else []
      | none => [])
  ++ (match d.updated with
      | some t => if t ≠ "" then [("updated", t)] else []
      | none => [])
  ++ (match d.notes with
      | some t => if t ≠ "" then [("notes", t)] else []
      | none => [])

def renderKV (kv : String × String) : String := kv.1 ++ ": " ++ kv.2

/-- The default body emitted by Deck.to_markdown, line by line. -/
def Deck.bodyLines (d : Deck) : List String :=
  ["# " ++ d.name, "**Commander:** " ++ d.commander]
  ++ (match d.theme with
      | some t => if t ≠ "" then ["**Theme:** " ++ t] else []
      | none => [])
  ++ (if d.colors ≠ [] then ["**Colors:** " ++ joinCommaSpace d.colors] else [])
  ++ ["\n## Decklist\n",
      "- [Commander] " ++ d.commander,
      "- ... add the rest of your cards here ..."]

/-- Deck.to_markdown of src/mtg_decks/deck.py: front-matter block, then
the fixed default body, joined with newlines.  As written in the source
it accepts no arguments (no body template, no decklist lines). -/
def Deck.to_markdown (d : Deck) : String :=
  joinLines ((FRONT_MATTER_MARK :: (d.frontKVs.map renderKV) ++ [FRONT_MATTER_MARK])
    ++ ["\n"] ++ d.bodyLines) ++ "\n"

/-- The first piece of Python line.split(":", 1). -/
def beforeColon (l : List Char) : List Char := l.takeWhile (fun c => c ≠ ':')

/-- The second piece of Python line.split(":", 1). -/
def afterColon (l : List Char) : List Char := (l.dropWhile (fun c => c ≠ ':')).drop 1

/-- The metadata scan of Deck.from_file: walk the lines after the
opening marker, stop at the closing marker, and record every stripped
nonempty line containing a colon as a key/value pair. -/
def scanMeta : List String → List (String × String) → List (String × String)
  | [], md => md
  | line :: rest, md =>
    let l := pyStrip line
    if l = FRONT_MATTER_MARK then md
    else if l ≠ "" ∧ ':' ∈ l.data then
      scanMeta rest (dictSet md ⟨pyStripL (beforeColon l.data)⟩ ⟨pyStripL (afterColon l.data)⟩)
    else scanMeta rest md

/-- The helper _split_csv of src/mtg_decks/deck.py. -/
def splitCsv (v : String) : List String :=
  if v = "" then []
  else ((splitOnChar ',' v.data).map pyStripL).filter (fun p => p ≠ []) |>.map
    (fun p => (⟨p⟩ : String))

/-- Python path.stem.replace("-", " "). -/
def stemSpaces (stem : String) : String :=
  ⟨stem.data.map (fun c => if c = '-' then ' ' else c)⟩

/-- Deck.from_file of src/mtg_decks/deck.py, with the file contents and
the filename stem passed explicitly.  Note that, as written in the
source, it is total: it never fails, defaults a missing commander to
"Unknown", and does not require the closing front-matter marker. -/
def Deck.from_file (text stem : String) : Deck :=
  let lines := pySplitlines text
  let metadata : List (String × String) :=
    match lines with
    | [] => []
    | l0 :: rest => if pyStrip l0 = FRONT_MATTER_MARK then scanMeta rest [] else []
  { name :=
      match dictGet metadata "name" with
      | some v => if v = "" then stemSpaces stem else v
      | none => stemSpaces stem
    commander := (dictGet metadata "commander").getD "Unknown"
    colors := splitCsv ((dictGet metadata "colors").getD "")
    theme := dictGet metadata "theme"
    created := dictGet metadata "created"
    updated := dictGet metadata "updated"
    notes := dictGet metadata "notes"
    format := (dictGet metadata "format").getD "Commander"
    path := some stem }

/-- slugify of src/mtg_decks/deck.py. -/
def slugifyAux : List Char → Bool → List Char
  | [], _ => []
  | c :: r, lastDash =>
    if c.isAlphanum then c :: slugifyAux r false
    else if c = ' ' ∨ c = '-' ∨ c = '_' then
      if lastDash then slugifyAux r true else '-' :: slugifyAux r true
    else slugifyAux r lastDash

def stripDashes (l : List Char) : List Char :=
  ((l.dropWhile (fun c => c = '-')).reverse.dropWhile (fun c => c = '-')).reverse

def slugify (text : String) : String :=
  let slug : List Char := stripDashes (slugifyAux (text.data.map Char.toLower) false)
  if slug = [] then "deck" else ⟨slug⟩

/-! ## mtg_decks.rules — parse_decklist and CommanderRules -/

/-- Python entry.lstrip("-"): drop all leading dashes. -/
def dropLeadDashes (l : List Char) : List Char := l.dropWhile (fun c => c = '-')

/-- The bullet pattern of parse_decklist: one or more digits, an
optional literal x, one or more whitespace characters, then a nonempty
rest; on a match the count is the digit run and the name is the stripped
rest.  The optional x participates only when whitespace follows it,
exactly as regex backtracking resolves the pattern. -/
def bulletPattern (e : String) : Option (Nat × String) :=
  let l := e.data
  let ds := l.takeWhile Char.isDigit
  if ds = [] then none
  else
    match l.drop ds.length with
    | [] => none
    | c :: r =>
      if c = 'x' then
        match r with
        | [] => none
        | c2 :: _ =>
          if pyWs c2 then
            let body := r.dropWhile pyWs
            if body = [] then none else some (natOfDigits ds, ⟨pyStripL body⟩)
          else none
      else if pyWs c then
        let body := (c :: r).dropWhile pyWs
        if body = [] then none else some (natOfDigits ds, ⟨pyStripL body⟩)
      else none

/-- One stripped bullet line of the decklist section: strip the leading
dashes, detect and remove a case-insensitive [commander] tag, then apply
the bullet pattern (count defaulting to 1 and name to the full remaining
text when it does not match). -/
def classifyBullet (stripped : String) : Bool × Nat × String :=
  let entry : String := ⟨pyStripL (dropLeadDashes stripped.data)⟩
  let isC := pyStartsWith (pyLower entry) "[commander]"
  let entry2 : String := if isC then ⟨pyStripL (entry.data.drop 11)⟩ else entry
  match bulletPattern entry2 with
  | some (c, n) => (isC, c, n)
  | none => (isC, 1, entry2)

/-- The line loop of parse_decklist after the heading: skip blank lines,
stop at a heading line that is not a bullet, skip other non-bullet
lines, and classify each bullet. -/
def collectEntries : List String → List (Bool × Nat × String)
  | [] => []
  | line :: rest =>
    let s := pyStrip line
    if s = "" then collectEntries rest
    else if pyStartsWith s "#" ∧ ¬ pyStartsWith s "-" then []
    else if ¬ pyStartsWith s "-" then collectEntries rest
    else classifyBullet s :: collectEntries rest

/-- Record one classified bullet: accumulate its count additively into
the counts dict and, when commander-tagged, insert its name into the
commander set. -/
def applyEntry (st : List (String × Nat) × List String) (e : Bool × Nat × String) :
    List (String × Nat) × List String :=
  (dictAdd st.1 e.2.2 e.2.1, if e.1 then setInsert st.2 e.2.2 else st.2)

/-- Locate the line equal, after strip and case-fold, to the decklist
heading, returning the lines after it. -/
def afterDecklist : List String → Option (List String)
  | [] => none
  | l :: r => if pyLower (pyStrip l) = "## decklist" then some r else afterDecklist r

/-- parse_decklist of src/mtg_decks/rules.py: extract card counts and
commander markers from the decklist section, failing when the heading is
absent. -/
def parse_decklist (markdown : String) : Except String (List (String × Nat) × List String) :=
  match afterDecklist (pySplitlines markdown) with
  | none => Except.error "No \x27## Decklist\x27 section found"
  | some rest => Except.ok ((collectEntries rest).foldl applyEntry ([], []))

def BASIC_LANDS : List String :=
  ["Plains", "Island", "Swamp", "Mountain", "Forest", "Wastes",
   "Snow-Covered Plains", "Snow-Covered Island", "Snow-Covered Swamp",
   "Snow-Covered Mountain", "Snow-Covered Forest"]

/-- The CommanderRules dataclass of src/mtg_decks/rules.py. -/
structure CommanderRules where
  deck_size : Nat := 100
  expected_format : String := "Commander"
  allow_duplicate_basics : Bool := true
  require_commander_tag : Bool := true
  max_commander_entries : Nat := 1
  basic_lands : List String := BASIC_LANDS
  banned_cards : List String := []
deriving Repr, DecidableEq

/-- Alias: Python str.casefold, modelled like str.lower. -/
def pyCasefold (s : String) : String := pyLower s

def fmtMsg (f : String) : String := "Deck format must be " ++ f

def sizeMsg (s t : Nat) : String :=
  "Deck must contain exactly " ++ natRepr s ++ " cards (found " ++ natRepr t ++ ")"

def bannedMsg (n f : String) : String := "Card \x27" ++ n ++ "\x27 is banned in " ++ f

def dupMsg (n : String) (k : Nat) : String :=
  "Card \x27" ++ n ++ "\x27 appears " ++ natRepr k ++ " times; only basics may repeat"

def tooManyMsg (k m : Nat) : String :=
  "Deck lists " ++ natRepr k ++ " commanders; maximum is " ++ natRepr m

def mustOnceMsg : String := "Commander must appear exactly once in the decklist"

def notMarkedMsg (c : String) : String :=
  "Commander \x27" ++ c ++ "\x27 not marked in the Decklist section"

def missingMsg : String := "Commander entry missing from decklist"

def formatErrs (rules : CommanderRules) (deck : Deck) : List String :=
  if deck.format ≠ "" ∧ pyLower deck.format ≠ pyLower rules.expected_format then
    [fmtMsg rules.expected_format]
  else []

def totalCards (counts : List (String × Nat)) : Nat := (counts.map Prod.snd).sum

def sizeErrs (rules : CommanderRules) (counts : List (String × Nat)) : List String :=
  if totalCards counts ≠ rules.deck_size then [sizeMsg rules.deck_size (totalCards counts)]
  else []

/-- The per-card loop of CommanderRules.validate: a banned-name check and
a duplicate-count check for every entry of the counts dict, in order. -/
def perCardErrs (rules : CommanderRules) (counts : List (String × Nat)) : List String :=
  counts.flatMap (fun p =>
    (if pyCasefold p.1 ∈ rules.banned_cards.map pyCasefold then
       [bannedMsg p.1 rules.expected_format]
     else [])
    ++ (if p.2 > 1 ∧ ¬(rules.allow_duplicate_basics = true ∧
          pyCasefold p.1 ∈ rules.basic_lands.map pyCasefold) then
          [dupMsg p.1 p.2]
        else []))

/-- The commander_present flag at the end of CommanderRules.validate. -/
def commanderPresent (rules : CommanderRules) (deck : Deck)
    (counts : List (String × Nat)) (entries : List String) : Bool :=
  if entries ≠ [] then entries.any (fun n => pyCasefold n == pyCasefold deck.commander)
  else if rules.require_commander_tag then false
  else counts.any (fun p => pyCasefold p.1 == pyCasefold deck.commander)

/-- The missing_commander_reported flag at the end of
CommanderRules.validate. -/
def missingReported (rules : CommanderRules) (deck : Deck) (entries : List String) : Bool :=
  if entries ≠ [] then !(entries.any (fun n => pyCasefold n == pyCasefold deck.commander))
  else rules.require_commander_tag

/-- The commander-entry section of CommanderRules.validate: the tagged
branch (limit check, exactly-once check per matching tag, not-marked
fallback), the untagged branch, and the final generic fallback. -/
def commanderErrs (rules : CommanderRules) (deck : Deck)
    (counts : List (String × Nat)) (entries : List String) : List String :=
  (if entries ≠ [] then
    (if entries.length > rules.max_commander_entries then
       [tooManyMsg entries.length rules.max_commander_entries]
     else [])
    ++ entries.flatMap (fun n =>
         if pyCasefold n = pyCasefold deck.commander ∧ countOf counts n ≠ 1 then
           [mustOnceMsg]
         else [])
    ++ (if entries.any (fun n => pyCasefold n == pyCasefold deck.commander) = false then
          [notMarkedMsg deck.commander]
        else [])
  else if rules.require_commander_tag then [missingMsg]
  else [])
  ++ (if commanderPresent rules deck counts entries = false ∧
        missingReported rules deck entries = false then
        [missingMsg]
      else [])

/-- CommanderRules.validate of src/mtg_decks/rules.py: the ordered list
of violation strings. -/
def CommanderRules.validate (rules : CommanderRules) (deck : Deck)
    (counts : List (String × Nat)) (entries : List String) : List String :=
  formatErrs rules deck ++ sizeErrs rules counts ++ perCardErrs rules counts
    ++ commanderErrs rules deck counts entries

/-! ## mtg_decks.importer — CardData, parse_import_rows, import_deck -/

/-- The CardData dataclass of src/mtg_decks/importer.py; the price map is
an association list in lookup order, none when absent. -/
structure CardData where
  name : String
  type_line : Option String := none
  color_identity : Option (List String) := none
  prices : Option (List (String × String)) := none
deriving Repr, DecidableEq

/-- A card resolver (the CardResolver interface): a lookup from a query
string to card data, none when the lookup fails. -/
def Resolver : Type := String → Option CardData

/-- Python "".join over strings. -/
def joinAll (ls : List String) : String := ⟨(ls.map String.data).flatten⟩

/-- Model of csv.reader with the default dialect on inputs without quote
characters: records are the lines of the text and fields are split on
commas.  (A blank line yields one empty field rather than an empty row;
both are skipped identically by parse_import_rows.) -/
def csvRows (text : String) : List (List String) :=
  (pySplitlines text).map (fun l => (splitOnChar ',' l.data).map (fun d => (⟨d⟩ : String)))

/-- Model of Python str.split(maxsplit=1): split on the first whitespace
run, with surrounding whitespace absorbed. -/
def splitMax1 (l : List Char) : List (List Char) :=
  let t := l.dropWhile pyWs
  if t = [] then []
  else
    let a := t.takeWhile (fun c => !(pyWs c))
    let r := (t.dropWhile (fun c => !(pyWs c))).dropWhile pyWs
    if r = [] then [a] else [a, r]

/-- parse_import_rows of src/mtg_decks/importer.py: parse newline or CSV
based input into (count, card name) pairs. -/
def parse_import_rows (text : String) : List (Nat × String) :=
  (csvRows text).flatMap (fun row =>
    if row = [] ∨ pyStrip (joinAll row) = "" then []
    else
      let ct_name : String × String :=
        if row.length ≥ 2 then (pyStrip (row.headD ""), pyStrip (joinComma (row.drop 1)))
        else
          let line := pyStrip (row.headD "")
          match splitMax1 line.data with
          | [a, b] =>
            if pyIsDigit ⟨a⟩ then ((⟨a⟩ : String), (⟨b⟩ : String)) else ("1", line)
          | _ => ("1", line)
      [(if pyIsDigit ct_name.1 then natOfDigits ct_name.1.data else 1, ct_name.2)])

def warnResolved (resolved input : String) : String :=
  "Commander resolved as \x27" ++ resolved ++ "\x27 (input: \x27" ++ input ++ "\x27)"

def warnLookupFailed (c : String) : String :=
  "Commander lookup failed for \x27" ++ c ++ "\x27; using provided text"

def warnAsIs (n : String) : String := "Using \x27" ++ n ++ "\x27 as-is (lookup failed)"

def warnResolvedCard (n m : String) : String :=
  "Resolved \x27" ++ n ++ "\x27 to \x27" ++ m ++ "\x27"

def warnMulti : String := "Commander provided multiple times; keeping a single copy"

/-- The ImportResult dataclass of src/mtg_decks/importer.py, with the
target path as the slug-derived file name. -/
structure ImportResult where
  path : String
  warnings : List String
  commander : String
  cards : List String
deriving Repr, DecidableEq

/-- The keyword arguments of import_deck (card_source as text; today is
the value of date.today().isoformat(); the library root is implicit in
the modelled file system, which holds the content at the target path). -/
structure ImportArgs where
  deck_name : String
  commander : String
  card_text : String
  colors : List String := []
  theme : Option String := none
  notes : Option String := none
  deck_format : String := "Commander"
  overwrite : Bool := false
  today : String := ""

/-- The normalized commander name inside import_deck. -/
def importCommanderName (resolver : Resolver) (a : ImportArgs) : String :=
  pyStrip (match resolver a.commander with | some c => c.name | none => a.commander)

/-- The deck colors inside import_deck: the caller-supplied colors if
nonempty, else the resolved commander color identity if truthy, else
empty. -/
def importDeckColors (resolver : Resolver) (a : ImportArgs) : List String :=
  if a.colors = [] then
    match resolver a.commander with
    | some c => match c.color_identity with
                | some ci => ci
                | none => []
    | none => []
  else a.colors

/-- The normalized card entries inside import_deck: every parsed entry
resolved, falling back to the raw name. -/
def importNormalizedCards (resolver : Resolver) (a : ImportArgs) : List (Nat × String) :=
  (parse_import_rows a.card_text).map (fun p =>
    (p.1, pyStrip (match resolver p.2 with | some r => r.name | none => p.2)))

/-- The filter that removes explicit commander entries from the imported
list. -/
def importFilteredCards (resolver : Resolver) (a : ImportArgs) : List (Nat × String) :=
  (importNormalizedCards resolver a).filter
    (fun p => !(pyCasefold p.2 == pyCasefold (importCommanderName resolver a)))

/-- The decklist bullet lines produced by import_deck: the commander
line first, then one bullet per remaining entry, count-prefixed only
when the count exceeds 1. -/
def importDecklistLines (resolver : Resolver) (a : ImportArgs) : List String :=
  ("- [Commander] " ++ importCommanderName resolver a)
    :: (importFilteredCards resolver a).map (fun p =>
         "- " ++ (if p.1 > 1 then natRepr p.1 ++ "x " else "") ++ p.2)

/-- The warning list accumulated by import_deck, in emission order. -/
def importWarnings (resolver : Resolver) (a : ImportArgs) : List String :=
  let cn := importCommanderName resolver a
  (if pyCasefold cn ≠ pyCasefold a.commander then [warnResolved cn a.commander] else [])
  ++ (if resolver a.commander = none then [warnLookupFailed a.commander] else [])
  ++ (parse_import_rows a.card_text).flatMap (fun p =>
       match resolver p.2 with
       | none => [warnAsIs p.2]
       | some r =>
         if pyCasefold (pyStrip r.name) ≠ pyCasefold p.2 then
           [warnResolvedCard p.2 (pyStrip r.name)]
         else [])
  ++ (importNormalizedCards resolver a).flatMap (fun p =>
       if pyCasefold p.2 == pyCasefold cn ∧ p.1 > 1 then [warnMulti] else [])

/-- The Deck record built by import_deck. -/
def importDeckRecord (resolver : Resolver) (a : ImportArgs) : Deck :=
  { name := a.deck_name
    commander := importCommanderName resolver a
    colors := importDeckColors resolver a
    theme := a.theme
    notes := a.notes
    format := a.deck_format
    created := some a.today }

/-- Modelled from the spec: Deck.to_markdown with the decklist_lines
parameter.  The version of Deck.to_markdown that accepts decklist lines
(and a body template) is missing from src/mtg_decks/deck.py, which holds
an argument-less version, while src/mtg_decks/importer.py calls
deck.to_markdown(decklist_lines=...) and the test suite exercises that
call; per the spec, the default body ends with a Decklist section seeded
with a commander bullet and the supplied decklist lines, a single
placeholder bullet standing in when none are given (the importer always
supplies the commander bullet itself as the first line). -/
def Deck.to_markdown_with_decklist (d : Deck) (decklist_lines : List String) : String :=
  joinLines ((FRONT_MATTER_MARK :: (d.frontKVs.map renderKV) ++ [FRONT_MATTER_MARK])
    ++ ["\n"]
    ++ (["# " ++ d.name, "**Commander:** " ++ d.commander]
        ++ (match d.theme with
            | some t => if t ≠ "" then ["**Theme:** " ++ t] else []
            | none => [])
        ++ (if d.colors ≠ [] then ["**Colors:** " ++ joinCommaSpace d.colors] else [])
        ++ ["\n## Decklist\n"]
        ++ (if decklist_lines = [] then
              ["- [Commander] " ++ d.commander, "- ... add the rest of your cards here ..."]
            else decklist_lines))) ++ "\n"

/-- The markdown text written to the target path by import_deck. -/
def importMarkdown (resolver : Resolver) (a : ImportArgs) : String :=
  (importDeckRecord resolver a).to_markdown_with_decklist (importDecklistLines resolver a)

def importDeckPath (a : ImportArgs) : String := slugify a.deck_name ++ ".md"

instance {α β : Type} [DecidableEq α] [DecidableEq β] : DecidableEq (Except α β) := fun a b =>
  match a, b with
  | Except.ok x, Except.ok y =>
    if h : x = y then isTrue (by rw [h]) else isFalse (by intro he; cases he; exact h rfl)
  | Except.error x, Except.error y =>
    if h : x = y then isTrue (by rw [h]) else isFalse (by intro he; cases he; exact h rfl)
  | Except.ok _, Except.error _ => isFalse (by intro he; cases he)
  | Except.error _, Except.ok _ => isFalse (by intro he; cases he)

/-- The outcome of an import run: the returned value or raised error,
together with the final content at the target path (none when no file
exists there). -/
structure ImportOutcome where
  result : Except String ImportResult
  fs : Option String
deriving Repr, DecidableEq

/-- import_deck of src/mtg_decks/importer.py over a modelled file system
holding the content at the slug-derived target path: parse the entries,
resolve names, write the record, and when a rule set is supplied
validate the freshly written record, deleting the file and failing with
the joined violations when any violation is found. -/
def import_deck (resolver : Resolver) (rules : Option CommanderRules)
    (fsBefore : Option String) (a : ImportArgs) : ImportOutcome :=
  if parse_import_rows a.card_text = [] then
    ⟨Except.error "No cards provided to import", fsBefore⟩
  else if fsBefore.isSome ∧ a.overwrite = false then
    ⟨Except.error ("Deck already exists: " ++ importDeckPath a), fsBefore⟩
  else
    let markdown := importMarkdown resolver a
    let res : ImportResult :=
      ⟨importDeckPath a, importWarnings resolver a, importCommanderName resolver a,
       importDecklistLines resolver a⟩
    match rules with
    | none => ⟨Except.ok res, some markdown⟩
    | some r =>
      match parse_decklist markdown with
      | Except.error e => ⟨Except.error e, some markdown⟩
      | Except.ok pe =>
        let viols := r.validate (importDeckRecord resolver a) pe.1 pe.2
        if viols ≠ [] then ⟨Except.error (joinSemi viols), none⟩
        else ⟨Except.ok res, some markdown⟩

/-! ## mtg_decks.valuation — DeckValuer, ValuationCache -/

/-- The DeckValuation dataclass; the total is modelled as a rational
(Python uses a float, but only builds it by sums and products of parsed
decimal strings). -/
structure DeckValuation where
  currency : String
  total : Rat
  missing_prices : List String := []
deriving Repr, DecidableEq

/-- Model of Python float() on plain decimal strings: optional sign,
integer digits, optional fraction digits, at least one digit in all;
none on anything else (exponent and special forms are out of scope for
the price strings being modelled). -/
def parseFloat (s : String) : Option Rat :=
  let t := pyStripL s.data
  let st : Rat × List Char :=
    match t with
    | '-' :: r => (-1, r)
    | '+' :: r => (1, r)
    | _ => (1, t)
  let ip := st.2.takeWhile Char.isDigit
  match st.2.drop ip.length with
  | [] => if ip = [] then none else some (st.1 * natOfDigits ip)
  | '.' :: fr =>
    let fp := fr.takeWhile Char.isDigit
    if fr.drop fp.length ≠ [] then none
    else if ip = [] ∧ fp = [] then none
    else some (st.1 * ((natOfDigits ip : Rat) + (natOfDigits fp : Rat) / (10 : Rat) ^ fp.length))
  | _ => none

/-- Python a or b over optional strings: the left value when truthy
(present and nonempty), else the right. -/
def pyOrStr : Option String → Option String → Option String
  | some s, b => if s = "" then b else some s
  | none, b => b

/-- Generic association-list lookup (Python dict d.get(k)). -/
def assocGet {α : Type} : List (String × α) → String → Option α
  | [], _ => none
  | (k2, v2) :: r, k => if k2 = k then some v2 else assocGet r k

/-- DeckValuer.price_card of src/mtg_decks/valuation.py: none when
resolution fails, the price map is absent or empty, both the lower- and
upper-case currency lookups are falsy, or the raw string fails numeric
parsing. -/
def price_card (resolver : Resolver) (name currency : String) : Option Rat :=
  match resolver name with
  | none => none
  | some card =>
    match card.prices with
    | none => none
    | some prices =>
      if prices = [] then none
      else
        match pyOrStr (assocGet prices (pyLower currency)) (assocGet prices (pyUpper currency)) with
        | none => none
        | some raw => if raw = "" then none else parseFloat raw

/-- The accumulation loop of DeckValuer.value_counts. -/
def valueAux (resolver : Resolver) (currency : String) :
    List (String × Nat) → Rat → List String → Rat × List String
  | [], tot, miss => (tot, miss)
  | (n, c) :: r, tot, miss =>
    match price_card resolver n currency with
    | none => valueAux resolver currency r tot (miss ++ [n])
    | some p => valueAux resolver currency r (tot + p * c) miss

/-- DeckValuer.value_counts of src/mtg_decks/valuation.py. -/
def value_counts (resolver : Resolver) (counts : List (String × Nat))
    (currency : String) : DeckValuation :=
  let tm := valueAux resolver currency counts 0 []
  ⟨currency, tm.1, tm.2⟩

/-- A timestamp as used by the cache freshness rule; only the calendar
year and month of the parsed valued_at value participate. -/
structure PyDateTime where
  year : Nat
  month : Nat
deriving Repr, DecidableEq

/-- A stored cache entry; valued_at holds the datetime.fromisoformat
parse of the stored string, none when that parse fails. -/
structure CacheEntry where
  currency : String
  total : Rat
  missing_prices : List String
  valued_at : Option PyDateTime
deriving Repr, DecidableEq

/-- ValuationCache._entry_is_current: an unparseable timestamp is never
current; otherwise the stored year and month must both equal those of
now. -/
def entryIsCurrent (valued_at : Option PyDateTime) (now : PyDateTime) : Bool :=
  match valued_at with
  | none => false
  | some t => t.year == now.year && t.month == now.month

/-- ValuationCache.get of src/mtg_decks/valuation.py over the stored
entry map: none when no entry exists, the stored currency differs
case-insensitively, or the entry is not current; otherwise the stored
valuation. -/
def ValuationCache.get (decks : List (String × CacheEntry))
    (deck_name currency : String) (now : PyDateTime) : Option DeckValuation :=
  match assocGet decks deck_name with
  | none => none
  | some e =>
    if pyLower e.currency ≠ pyLower currency then none
    else if entryIsCurrent e.valued_at now = false then none
    else some ⟨e.currency, e.total, e.missing_prices⟩

/-! ## Claim theorems -/

/-- C1: the spec requires Deck.from_file to fail with a parse error when
the closing front-matter marker is never found or the commander key is
absent from the metadata block; the source function is total and does
neither.  On a metadata block with no commander field (the contents of
the test file missing.md) it silently defaults the commander to
"Unknown", and on a block whose closing marker is never found (the
contents of unterminated.md) it loads normally. -/
theorem C1_from_file_never_fails :
    (Deck.from_file "---\nname: Missing Commander\n---\n" "missing").commander = "Unknown"
    ∧ Deck.from_file "---\nname: Missing Commander\ncommander: No Close\n" "unterminated"
      = { name := "Missing Commander", commander := "No Close", path := some "unterminated" } :=
  ⟨rfl, rfl⟩

set_option maxRecDepth 8192 in
/-- C8: Deck.to_markdown as written accepts no body template and no
decklist lines; for the deck of the template-rendering test it always
emits the fixed default body ending in the placeholder bullet, and the
call deck.to_markdown(body_template=...) made by DeckLibrary.create_deck
(and deck.to_markdown(decklist_lines=...) made by import_deck) has no
counterpart in its signature. -/
theorem C8_to_markdown_has_no_template_support :
    Deck.to_markdown
      { name := "Custom Deck", commander := "Custom Commander", colors := ["R"],
        created := some "2024-06-01", format := "Modern" }
    = "---\nname: Custom Deck\ncommander: Custom Commander\ncolors: R\nformat: Modern\ncreated: 2024-06-01\n---\n\n\n# Custom Deck\n**Commander:** Custom Commander\n**Colors:** R\n\n## Decklist\n\n- [Commander] Custom Commander\n- ... add the rest of your cards here ...\n" :=
  rfl

/-- C10: a free-text line with a trailing x after the digits, such as
"4x Arcane Signet", is not recognised by parse_import_rows: "4x" fails
str.isdigit, so the line falls through to the bare-name branch and
yields count 1 with the full line as the name, where the claim (and the
test test_parse_import_rows_handles_csv_and_lines) expects (4, "Arcane
Signet").  The full test input shows the same divergence in context. -/
theorem C10_trailing_x_not_parsed :
    parse_import_rows "4x Arcane Signet" = [(1, "4x Arcane Signet")]
    ∧ parse_import_rows "2, Sol Ring\n4x Arcane Signet\n1 Arcane Signet\nMystic Remora"
      = [(2, "Sol Ring"), (1, "4x Arcane Signet"), (1, "Arcane Signet"), (1, "Mystic Remora")] :=
  ⟨rfl, rfl⟩

lemma eic_false_iff (v : Option PyDateTime) (now : PyDateTime) :
    entryIsCurrent v now = false ↔
      v = none ∨ ∃ t, v = some t ∧ (t.year ≠ now.year ∨ t.month ≠ now.month) := by
  cases v <;> simp [entryIsCurrent]
  tauto

lemma eic_true_iff (v : Option PyDateTime) (now : PyDateTime) :
    entryIsCurrent v now = true ↔
      ∃ t, v = some t ∧ t.year = now.year ∧ t.month = now.month := by
  cases v <;> simp [entryIsCurrent]

lemma cacheGet_some (decks : List (String × CacheEntry)) (deck_name currency : String)
    (now : PyDateTime) (e : CacheEntry) (he : assocGet decks deck_name = some e) :
    ValuationCache.get decks deck_name currency now =
      (if pyLower e.currency ≠ pyLower currency then none
       else if entryIsCurrent e.valued_at now = false then none
       else some ⟨e.currency, e.total, e.missing_prices⟩) := by
  unfold ValuationCache.get
  rw [he]

lemma cacheGet_none (decks : List (String × CacheEntry)) (deck_name currency : String)
    (now : PyDateTime) (he : assocGet decks deck_name = none) :
    ValuationCache.get decks deck_name currency now = none := by
  unfold ValuationCache.get
  rw [he]

/-- C5: ValuationCache.get is absent exactly when no entry exists for
the deck name, the stored currency differs case-insensitively from the
request, or the stored valued_at does not fall in the same calendar
year and month as now (an unparseable valued_at never being current);
otherwise it returns the stored valuation. -/
theorem C5_cache_get_freshness (decks : List (String × CacheEntry))
    (deck_name currency : String) (now : PyDateTime) :
    (ValuationCache.get decks deck_name currency now = none ↔
      assocGet decks deck_name = none
      ∨ ∃ e, assocGet decks deck_name = some e ∧
          (pyLower e.currency ≠ pyLower currency
           ∨ e.valued_at = none
           ∨ ∃ t, e.valued_at = some t ∧ (t.year ≠ now.year ∨ t.month ≠ now.month)))
    ∧ (∀ e, assocGet decks deck_name = some e →
        pyLower e.currency = pyLower currency →
        (∃ t, e.valued_at = some t ∧ t.year = now.year ∧ t.month = now.month) →
        ValuationCache.get decks deck_name currency now
          = some ⟨e.currency, e.total, e.missing_prices⟩) := by
  constructor
  · cases h : assocGet decks deck_name with
    | none =>
      rw [cacheGet_none decks deck_name currency now h]
      simp
    | some e =>
      rw [cacheGet_some decks deck_name currency now e h]
      by_cases hc : pyLower e.currency = pyLower currency
      · rw [if_neg (fun hne => hne hc)]
        cases hb : entryIsCurrent e.valued_at now with
        | false =>
          rw [if_pos rfl]
          constructor
          · intro _
            exact Or.inr ⟨e, rfl, Or.inr ((eic_false_iff e.valued_at now).mp hb)⟩
          · intro _
            rfl
        | true =>
          rw [if_neg (by simp)]
          constructor
          · intro hn
            exact absurd hn (by simp)
          · rintro (h1 | ⟨e2, he2, hcut⟩)
            · exact absurd h1 (by simp)
            · have he3 : e2 = e := (Option.some.inj he2).symm
              subst he3
              obtain ⟨t, hvt, hy, hm⟩ := (eic_true_iff _ now).mp hb
              rcases hcut with h3 | h3 | ⟨t2, hvt2, h4⟩
              · exact absurd hc h3
              · rw [h3] at hvt
                cases hvt
              · rw [hvt2] at hvt
                have ht : t2 = t := Option.some.inj hvt
                subst ht
                rcases h4 with h4 | h4
                · exact absurd hy h4
                · exact absurd hm h4
      · rw [if_pos hc]
        exact ⟨fun _ => Or.inr ⟨e, rfl, Or.inl hc⟩, fun _ => rfl⟩
  · rintro e he hc ⟨t, hv, hy, hm⟩
    rw [cacheGet_some decks deck_name currency now e he, if_neg (fun hne => hne hc),
      if_neg (by rw [(eic_true_iff e.valued_at now).mpr ⟨t, hv, hy, hm⟩]; simp)]

/-- Witness for C5 at a concrete cache: one stored entry in usd valued
in February 2024 is returned for a February 2024 request in USD. -/
theorem C5_cache_get_freshness_witness :
    ValuationCache.get
      [("Stale Deck", ⟨"usd", 10, ["Arcane Signet"], some ⟨2024, 2⟩⟩)]
      "Stale Deck" "USD" ⟨2024, 2⟩
    = some ⟨"usd", 10, ["Arcane Signet"]⟩ :=
  (C5_cache_get_freshness [("Stale Deck", ⟨"usd", 10, ["Arcane Signet"], some ⟨2024, 2⟩⟩)]
      "Stale Deck" "USD" ⟨2024, 2⟩).2
    ⟨"usd", 10, ["Arcane Signet"], some ⟨2024, 2⟩⟩ (by decide) (by decide)
    ⟨⟨2024, 2⟩, rfl, rfl, rfl⟩

lemma valueAux_spec (resolver : Resolver) (currency : String) (l : List (String × Nat))
    (tot : Rat) (miss : List String) :
    valueAux resolver currency l tot miss =
      (tot + ((l.filterMap (fun p =>
          (price_card resolver p.1 currency).map (fun q => q * (p.2 : Rat)))).sum),
       miss ++ (l.filter (fun p => (price_card resolver p.1 currency).isNone)).map Prod.fst) := by
  induction l generalizing tot miss with
  | nil => simp [valueAux]
  | cons p r ih =>
    obtain ⟨n, c⟩ := p
    cases hp : price_card resolver n currency with
    | none => simp [valueAux, hp, ih]
    | some q =>
      simp [valueAux, hp, ih]
      ring

/-- C6: value_counts returns the requested currency, a total equal to
the sum of price times count over exactly the entries whose price
resolves, and a missing list holding exactly the names whose price is
absent in order of first encounter; and price_card is absent precisely
when resolution fails, no price map is returned or it is empty, the
currency key is falsy under both the lower- and upper-case lookup, or
the raw price string fails numeric parsing. -/
theorem C6_value_counts_sums_and_price_card_absence (resolver : Resolver)
    (counts : List (String × Nat)) (currency : String) :
    (value_counts resolver counts currency).currency = currency
    ∧ (value_counts resolver counts currency).total =
        (counts.filterMap (fun p =>
          (price_card resolver p.1 currency).map (fun q => q * (p.2 : Rat)))).sum
    ∧ (value_counts resolver counts currency).missing_prices =
        (counts.filter (fun p => (price_card resolver p.1 currency).isNone)).map Prod.fst
    ∧ ∀ name, (price_card resolver name currency = none ↔
        resolver name = none
        ∨ ∃ card, resolver name = some card ∧
            (card.prices = none ∨ card.prices = some []
             ∨ ∃ prices, card.prices = some prices ∧ prices ≠ [] ∧
                 (pyOrStr (assocGet prices (pyLower currency))
                    (assocGet prices (pyUpper currency)) = none
                  ∨ ∃ raw,
                      pyOrStr (assocGet prices (pyLower currency))
                        (assocGet prices (pyUpper currency)) = some raw
                      ∧ parseFloat raw = none))) := by
  refine ⟨rfl, ?_, ?_, ?_⟩
  · simp [value_counts, valueAux_spec]
  · simp [value_counts, valueAux_spec]
  · intro name
    cases hr : resolver name with
    | none => simp [price_card, hr]
    | some card =>
      cases hp : card.prices with
      | none => simp [price_card, hr, hp]
      | some prices =>
        by_cases he : prices = []
        · subst he
          simp [price_card, hr, hp]
        · cases ho : pyOrStr (assocGet prices (pyLower currency))
              (assocGet prices (pyUpper currency)) with
          | none => simp [price_card, hr, hp, he, ho]
          | some raw =>
            by_cases hraw : raw = ""
            · subst hraw
              simp [price_card, hr, hp, he, ho, show parseFloat "" = none from rfl]
            · simp [price_card, hr, hp, he, ho, hraw]

lemma countOf_dictAdd (m : List (String × Nat)) (k : String) (v : Nat) (n : String) :
    countOf (dictAdd m k v) n = countOf m n + (if k = n then v else 0) := by
  induction m with
  | nil => by_cases h : k = n <;> simp [dictAdd, countOf, h]
  | cons p r ih =>
    obtain ⟨k2, v2⟩ := p
    by_cases h2 : k2 = k
    · subst h2
      by_cases hn : k2 = n <;> simp [dictAdd, countOf, hn]
    · by_cases hn : k2 = n
      · have hk : ¬ k = n := fun he => h2 (by rw [hn, he])
        have hk2 : ¬ n = k := fun he => hk he.symm
        simp [dictAdd, countOf, h2, hn, hk, hk2]
      · simp [dictAdd, countOf, h2, hn, ih]

lemma mem_setInsert (l : List String) (x y : String) :
    y ∈ setInsert l x ↔ y ∈ l ∨ y = x := by
  unfold setInsert
  by_cases hx : x ∈ l
  · rw [if_pos hx]
    constructor
    · exact Or.inl
    · rintro (h | rfl)
      · exact h
      · exact hx
  · rw [if_neg hx]
    simp

lemma foldCounts_spec (es : List (Bool × Nat × String))
    (acc : List (String × Nat) × List String) (name : String) :
    countOf (es.foldl applyEntry acc).1 name
      = countOf acc.1 name + ((es.filter (fun e => e.2.2 == name)).map (fun e => e.2.1)).sum := by
  induction es generalizing acc with
  | nil => simp
  | cons e r ih =>
    simp only [List.foldl_cons, ih, applyEntry, countOf_dictAdd]
    by_cases hn : e.2.2 = name <;> simp [hn] <;> omega

lemma applyEntry_snd_true (acc : List (String × Nat) × List String)
    (e : Bool × Nat × String) (he : e.1 = true) :
    (applyEntry acc e).2 = setInsert acc.2 e.2.2 := by
  simp [applyEntry, he]

lemma applyEntry_snd_false (acc : List (String × Nat) × List String)
    (e : Bool × Nat × String) (he : ¬ e.1 = true) :
    (applyEntry acc e).2 = acc.2 := by
  simp [applyEntry, he]

lemma foldCmdrs_spec (es : List (Bool × Nat × String))
    (acc : List (String × Nat) × List String) (name : String) :
    name ∈ (es.foldl applyEntry acc).2 ↔
      name ∈ acc.2 ∨ ∃ e ∈ es, e.1 = true ∧ e.2.2 = name := by
  induction es generalizing acc with
  | nil => simp
  | cons e r ih =>
    rw [List.foldl_cons, ih]
    constructor
    · rintro (hm | ⟨w, hw, hw1, hw2⟩)
      · by_cases he : e.1 = true
        · rw [applyEntry_snd_true acc e he] at hm
          rcases (mem_setInsert _ _ _).mp hm with h | h
          · exact Or.inl h
          · exact Or.inr ⟨e, by simp, he, h.symm⟩
        · rw [applyEntry_snd_false acc e he] at hm
          exact Or.inl hm
      · exact Or.inr ⟨w, by simp [hw], hw1, hw2⟩
    · rintro (hm | ⟨w, hw, hw1, hw2⟩)
      · left
        by_cases he : e.1 = true
        · rw [applyEntry_snd_true acc e he]
          exact (mem_setInsert _ _ _).mpr (Or.inl hm)
        · rw [applyEntry_snd_false acc e he]
          exact hm
      · rcases List.mem_cons.mp hw with rfl | hwr
        · left
          rw [applyEntry_snd_true acc w hw1]
          exact (mem_setInsert _ _ _).mpr (Or.inr hw2.symm)
        · exact Or.inr ⟨w, hwr, hw1, hw2⟩

set_option maxRecDepth 8192 in
/-- C2: the decklist entry fold accumulates counts additively (the count
recorded for any name is the sum of the counts of all bullets that
yielded that name, never an overwrite) and commander membership is a
set union over the tagged bullets; and the example decklist after the
heading parses to the expected counts and commander set, with the
unmatched bullet line Sol Ring and the tagged commander line defaulting
to count 1. -/
theorem C2_parse_decklist_accumulation_and_example :
    (∀ (es : List (Bool × Nat × String)) (name : String),
        countOf (es.foldl applyEntry ([], [])).1 name
          = ((es.filter (fun e => e.2.2 == name)).map (fun e => e.2.1)).sum
        ∧ (name ∈ (es.foldl applyEntry ([], [])).2 ↔
            ∃ e ∈ es, e.1 = true ∧ e.2.2 = name))
    ∧ parse_decklist
        "## Decklist\n- [Commander] Atraxa, Praetors\x27 Voice\n- 3x Island\n- Sol Ring\n- 2 Farseek"
      = Except.ok
          ([("Atraxa, Praetors\x27 Voice", 1), ("Island", 3), ("Sol Ring", 1), ("Farseek", 2)],
           ["Atraxa, Praetors\x27 Voice"]) :=
  ⟨fun es name =>
    ⟨by simpa [countOf] using foldCounts_spec es ([], []) name,
     by simpa using foldCmdrs_spec es ([], []) name⟩,
   rfl⟩

theorem data_append (a b : String) : (a ++ b).data = a.data ++ b.data := rfl

lemma natReprAux_mem (n : Nat) (acc : List Char) (c : Char) (hc : c ∈ natReprAux n acc) :
    c ∈ acc ∨ ∃ d, d < 10 ∧ c = digitChar d := by
  induction n using Nat.strong_induction_on generalizing acc with
  | _ n ih =>
    unfold natReprAux at hc
    by_cases h : n < 10
    · rw [dif_pos h] at hc
      rcases List.mem_cons.mp hc with he | ha
      · exact Or.inr ⟨n, h, he⟩
      · exact Or.inl ha
    · rw [dif_neg h] at hc
      have hlt : n / 10 < n :=
        Nat.div_lt_self (Nat.lt_of_lt_of_le (by norm_num) (Nat.le_of_not_lt h)) (by norm_num)
      rcases ih (n / 10) hlt _ hc with ha | hd
      · rcases List.mem_cons.mp ha with he | ha2
        · exact Or.inr ⟨n % 10, Nat.mod_lt n (by norm_num), he⟩
        · exact Or.inl ha2
      · exact Or.inr hd

lemma natRepr_no_apos (n : Nat) : '\x27' ∉ (natRepr n).data := by
  intro h
  rcases natReprAux_mem n [] _ h with h2 | ⟨d, hd, he⟩
  · simp at h2
  · interval_cases d <;> exact absurd he (by decide)

lemma takeWhile_all_append (p : Char → Bool) (l m : List Char) (c : Char)
    (hl : ∀ x ∈ l, p x = true) (hc : p c = false) :
    ((l ++ c :: m).takeWhile p) = l := by
  induction l with
  | nil => simp [List.takeWhile, hc]
  | cons a t ih =>
    have ha := hl a (by simp)
    simp [List.takeWhile, ha, ih fun x hx => hl x (by simp [hx])]

lemma eq_after_last_apos (a b s t : List Char)
    (h : a ++ '\x27' :: s = b ++ '\x27' :: t)
    (hs : '\x27' ∉ s) (ht : '\x27' ∉ t) : s = t := by
  have hr := congrArg List.reverse h
  simp only [List.reverse_append, List.reverse_cons, List.append_assoc,
    List.singleton_append] at hr
  have hws : ∀ x ∈ s.reverse, (!(x == '\x27')) = true := by
    intro x hx
    simp only [Bool.not_eq_eq_eq_not, Bool.not_true, beq_eq_false_iff_ne]
    exact fun he => hs (he ▸ List.mem_reverse.mp hx)
  have hwt : ∀ x ∈ t.reverse, (!(x == '\x27')) = true := by
    intro x hx
    simp only [Bool.not_eq_eq_eq_not, Bool.not_true, beq_eq_false_iff_ne]
    exact fun he => ht (he ▸ List.mem_reverse.mp hx)
  have h2 := congrArg (List.takeWhile (fun c => !(c == '\x27'))) hr
  rw [takeWhile_all_append _ _ _ _ hws (by simp),
    takeWhile_all_append _ _ _ _ hwt (by simp)] at h2
  exact List.reverse_injective h2

lemma dupMsg_data (n : String) (k : Nat) :
    (dupMsg n k).data = ("Card \x27".data ++ n.data)
      ++ '\x27' :: (" appears ".data ++ ((natRepr k).data ++ " times; only basics may repeat".data)) := by
  simp only [dupMsg, data_append, List.append_assoc]
  rfl

lemma bannedMsg_data (n f : String) :
    (bannedMsg n f).data = ("Card \x27".data ++ n.data)
      ++ '\x27' :: (" is banned in ".data ++ f.data) := by
  simp only [bannedMsg, data_append, List.append_assoc]
  rfl

lemma dupMsg_ne_banned (n : String) (k : Nat) (X f : String)
    (hf : '\x27' ∉ f.data) : dupMsg n k ≠ bannedMsg X f := by
  intro he
  have h := congrArg String.data he
  rw [dupMsg_data, bannedMsg_data] at h
  have hsuf := eq_after_last_apos _ _ _ _ h
    (by
      intro hmem
      rcases List.mem_append.mp hmem with h2 | h2
      · exact absurd h2 (by decide)
      · rcases List.mem_append.mp h2 with h3 | h3
        · exact natRepr_no_apos k h3
        · exact absurd h3 (by decide))
    (by
      intro hmem
      rcases List.mem_append.mp hmem with h2 | h2
      · exact absurd h2 (by decide)
      · exact hf h2)
  exact absurd (congrArg (fun l => l.get? 1) hsuf) (show ¬ (some 'a' = some 'i') by decide)

lemma bannedMsg_inj (n X f : String) : bannedMsg n f = bannedMsg X f ↔ n = X := by
  constructor
  · intro he
    have h := congrArg String.data he
    simp only [bannedMsg, data_append, List.append_assoc] at h
    have h2 := List.append_cancel_left h
    have h3 := List.append_cancel_right h2
    exact congrArg String.mk h3
  · rintro rfl
    rfl

lemma fmtMsg_ne_banned (g X f : String) : fmtMsg g ≠ bannedMsg X f :=
  fun he => absurd (congrArg (fun s => s.data.get? 0) he)
    (show ¬ (some 'D' = some 'C') by decide)

lemma sizeMsg_ne_banned (a b : Nat) (X f : String) : sizeMsg a b ≠ bannedMsg X f :=
  fun he => absurd (congrArg (fun s => s.data.get? 0) he)
    (show ¬ (some 'D' = some 'C') by decide)

lemma tooManyMsg_ne_banned (a b : Nat) (X f : String) : tooManyMsg a b ≠ bannedMsg X f :=
  fun he => absurd (congrArg (fun s => s.data.get? 0) he)
    (show ¬ (some 'D' = some 'C') by decide)

lemma mustOnceMsg_ne_banned (X f : String) : mustOnceMsg ≠ bannedMsg X f :=
  fun he => absurd (congrArg (fun s => s.data.get? 1) he)
    (show ¬ (some 'o' = some 'a') by decide)

lemma notMarkedMsg_ne_banned (c X f : String) : notMarkedMsg c ≠ bannedMsg X f :=
  fun he => absurd (congrArg (fun s => s.data.get? 1) he)
    (show ¬ (some 'o' = some 'a') by decide)

lemma missingMsg_ne_banned (X f : String) : missingMsg ≠ bannedMsg X f :=
  fun he => absurd (congrArg (fun s => s.data.get? 1) he)
    (show ¬ (some 'o' = some 'a') by decide)

lemma mem_if_singleton {c : Prop} [Decidable c] {x a : String}
    (h : a ∈ (if c then [x] else [])) : a = x := by
  split at h
  · simpa using h
  · simp at h

lemma countP_flatMap {α β : Type} (g : α → List β) (p : β → Bool) (l : List α) :
    ((l.flatMap g).countP p) = (l.map (fun x => (g x).countP p)).sum := by
  induction l with
  | nil => simp
  | cons x r ih => simp [List.flatMap_cons, List.countP_append, ih]

lemma formatErrs_countP_banned (rules : CommanderRules) (deck : Deck) (X : String) :
    (formatErrs rules deck).countP (fun s => s == bannedMsg X rules.expected_format) = 0 := by
  rw [List.countP_eq_zero]
  intro a ha
  unfold formatErrs at ha
  have he := mem_if_singleton ha
  subst he
  simp only [beq_iff_eq]
  exact fmtMsg_ne_banned _ X _

lemma sizeErrs_countP_banned (rules : CommanderRules) (counts : List (String × Nat)) (X : String) :
    (sizeErrs rules counts).countP (fun s => s == bannedMsg X rules.expected_format) = 0 := by
  rw [List.countP_eq_zero]
  intro a ha
  unfold sizeErrs at ha
  have he := mem_if_singleton ha
  subst he
  simp only [beq_iff_eq]
  exact sizeMsg_ne_banned _ _ X _

lemma commanderErrs_countP_banned (rules : CommanderRules) (deck : Deck)
    (counts : List (String × Nat)) (entries : List String) (X : String) :
    (commanderErrs rules deck counts entries).countP
      (fun s => s == bannedMsg X rules.expected_format) = 0 := by
  rw [List.countP_eq_zero]
  intro a ha
  unfold commanderErrs at ha
  simp only [beq_iff_eq]
  rcases List.mem_append.mp ha with h | h
  · by_cases hne : entries ≠ []
    · rw [if_pos hne] at h
      rcases List.mem_append.mp h with h2 | h2
      · rcases List.mem_append.mp h2 with h3 | h3
        · have he := mem_if_singleton h3
          subst he
          exact tooManyMsg_ne_banned _ _ X _
        · rcases List.mem_flatMap.mp h3 with ⟨n, _, hm⟩
          have he := mem_if_singleton hm
          subst he
          exact mustOnceMsg_ne_banned X _
      · have he := mem_if_singleton h2
        subst he
        exact notMarkedMsg_ne_banned _ X _
    · rw [if_neg hne] at h
      have he := mem_if_singleton h
      subst he
      exact missingMsg_ne_banned X _
  · have he := mem_if_singleton h
    subst he
    exact missingMsg_ne_banned X _

lemma percard_step (rules : CommanderRules) (X n : String) (k : Nat)
    (hban : pyCasefold X ∈ rules.banned_cards.map pyCasefold)
    (hf : '\x27' ∉ rules.expected_format.data) :
    (((if pyCasefold n ∈ rules.banned_cards.map pyCasefold then
        [bannedMsg n rules.expected_format] else [])
      ++ (if k > 1 ∧ ¬(rules.allow_duplicate_basics = true ∧
            pyCasefold n ∈ rules.basic_lands.map pyCasefold) then [dupMsg n k] else [])).countP
      (fun s => s == bannedMsg X rules.expected_format))
    = if n = X then 1 else 0 := by
  rw [List.countP_append]
  have hdup : ((if k > 1 ∧ ¬(rules.allow_duplicate_basics = true ∧
      pyCasefold n ∈ rules.basic_lands.map pyCasefold) then [dupMsg n k] else []).countP
      (fun s => s == bannedMsg X rules.expected_format)) = 0 := by
    rw [List.countP_eq_zero]
    intro a ha
    have he := mem_if_singleton ha
    subst he
    simp only [beq_iff_eq]
    exact dupMsg_ne_banned n k X _ hf
  rw [hdup, Nat.add_zero]
  by_cases hn : n = X
  · subst hn
    rw [if_pos hban, if_pos rfl]
    simp [List.countP_cons]
  · rw [if_neg hn]
    by_cases hb : pyCasefold n ∈ rules.banned_cards.map pyCasefold
    · rw [if_pos hb]
      simp only [List.countP_cons, List.countP_nil, Nat.zero_add]
      rw [if_neg (by simp only [beq_iff_eq]; exact fun he => hn ((bannedMsg_inj n X _).mp he))]
    · rw [if_neg hb]
      simp

lemma sum_indicator_eq_count (X : String) (l : List (String × Nat)) :
    (l.map (fun p => if p.1 = X then 1 else 0)).sum = (l.map Prod.fst).count X := by
  induction l with
  | nil => simp
  | cons p r ih =>
    simp only [List.map_cons, List.sum_cons, ih, List.count_cons]
    by_cases h : p.1 = X
    · simp [h, Nat.add_comm]
    · simp [h, fun he : X = p.1 => h he.symm]

/-- C9: for a counts dict with unique keys (a Python dict) containing a
card X whose name case-folds into the banned set, validate emits the
banned violation naming X exactly once, whatever the count of X and
whatever the other checks add, provided the configured format name
contains no apostrophe (with an adversarial apostrophe-bearing format a
duplicate-count message can collide textually with a banned message). -/
theorem C9_banned_card_exactly_one_violation (rules : CommanderRules) (deck : Deck)
    (counts : List (String × Nat)) (entries : List String) (X : String)
    (hnodup : (counts.map Prod.fst).Nodup)
    (hmem : X ∈ counts.map Prod.fst)
    (hban : pyCasefold X ∈ rules.banned_cards.map pyCasefold)
    (hf : '\x27' ∉ rules.expected_format.data) :
    ((rules.validate deck counts entries).countP
      (fun s => s == bannedMsg X rules.expected_format)) = 1 := by
  unfold CommanderRules.validate
  rw [List.countP_append, List.countP_append, List.countP_append,
    formatErrs_countP_banned, sizeErrs_countP_banned, commanderErrs_countP_banned]
  have hper : ((perCardErrs rules counts).countP
      (fun s => s == bannedMsg X rules.expected_format)) = 1 := by
    unfold perCardErrs
    rw [countP_flatMap]
    rw [List.map_congr_left (fun p _ => percard_step rules X p.1 p.2 hban hf)]
    rw [sum_indicator_eq_count]
    exact List.count_eq_one_of_mem hnodup hmem
  omega

/-- Witness for C9: a 100-card deck carrying one copy of Black Lotus
against a rule set banning it yields exactly one banned violation. -/
theorem C9_banned_card_exactly_one_violation_witness :
    ((CommanderRules.validate { banned_cards := ["Black Lotus"] }
        { name := "Powered", commander := "Atraxa" }
        [("Atraxa", 1), ("Black Lotus", 1), ("Plains", 98)] ["Atraxa"]).countP
      (fun s => s == bannedMsg "Black Lotus" "Commander")) = 1 :=
  C9_banned_card_exactly_one_violation { banned_cards := ["Black Lotus"] }
    { name := "Powered", commander := "Atraxa" }
    [("Atraxa", 1), ("Black Lotus", 1), ("Plains", 98)] ["Atraxa"] "Black Lotus"
    (by decide) (by decide) (by decide) (by decide)

/-- The two missing-commander messages of CommanderRules.validate: the
tagged-path not-marked message and the generic fallback message. -/
def isMissingMsg (c : String) (s : String) : Bool :=
  (s == missingMsg) || (s == notMarkedMsg c)

lemma fmtMsg_ne_missing (g : String) : fmtMsg g ≠ missingMsg :=
  fun he => absurd (congrArg (fun s => s.data.get? 0) he)
    (show ¬ (some 'D' = some 'C') by decide)

lemma fmtMsg_ne_notMarked (g c : String) : fmtMsg g ≠ notMarkedMsg c :=
  fun he => absurd (congrArg (fun s => s.data.get? 0) he)
    (show ¬ (some 'D' = some 'C') by decide)

lemma sizeMsg_ne_missing (a b : Nat) : sizeMsg a b ≠ missingMsg :=
  fun he => absurd (congrArg (fun s => s.data.get? 0) he)
    (show ¬ (some 'D' = some 'C') by decide)

lemma sizeMsg_ne_notMarked (a b : Nat) (c : String) : sizeMsg a b ≠ notMarkedMsg c :=
  fun he => absurd (congrArg (fun s => s.data.get? 0) he)
    (show ¬ (some 'D' = some 'C') by decide)

lemma tooManyMsg_ne_missing (a b : Nat) : tooManyMsg a b ≠ missingMsg :=
  fun he => absurd (congrArg (fun s => s.data.get? 0) he)
    (show ¬ (some 'D' = some 'C') by decide)

lemma tooManyMsg_ne_notMarked (a b : Nat) (c : String) : tooManyMsg a b ≠ notMarkedMsg c :=
  fun he => absurd (congrArg (fun s => s.data.get? 0) he)
    (show ¬ (some 'D' = some 'C') by decide)

lemma bannedMsg_ne_missing (n f : String) : bannedMsg n f ≠ missingMsg :=
  fun he => absurd (congrArg (fun s => s.data.get? 1) he)
    (show ¬ (some 'a' = some 'o') by decide)

lemma bannedMsg_ne_notMarked (n f c : String) : bannedMsg n f ≠ notMarkedMsg c :=
  fun he => absurd (congrArg (fun s => s.data.get? 1) he)
    (show ¬ (some 'a' = some 'o') by decide)

lemma dupMsg_ne_missing (n : String) (k : Nat) : dupMsg n k ≠ missingMsg :=
  fun he => absurd (congrArg (fun s => s.data.get? 1) he)
    (show ¬ (some 'a' = some 'o') by decide)

lemma dupMsg_ne_notMarked (n : String) (k : Nat) (c : String) : dupMsg n k ≠ notMarkedMsg c :=
  fun he => absurd (congrArg (fun s => s.data.get? 1) he)
    (show ¬ (some 'a' = some 'o') by decide)

lemma mustOnceMsg_ne_missing : mustOnceMsg ≠ missingMsg := by decide

lemma mustOnceMsg_ne_notMarked (c : String) : mustOnceMsg ≠ notMarkedMsg c :=
  fun he => absurd (congrArg (fun s => s.data.get? 10) he)
    (show ¬ (some 'm' = some '\x27') by decide)

lemma missingMsg_ne_notMarked (c : String) : missingMsg ≠ notMarkedMsg c :=
  fun he => absurd (congrArg (fun s => s.data.get? 10) he)
    (show ¬ (some 'e' = some '\x27') by decide)

lemma isMissingMsg_false_of_ne (c s : String) (hm : s ≠ missingMsg)
    (hn : s ≠ notMarkedMsg c) : isMissingMsg c s = false := by
  simp [isMissingMsg, beq_eq_false_iff_ne, hm, hn]

lemma formatErrs_countP_missing (rules : CommanderRules) (deck : Deck) (c : String) :
    (formatErrs rules deck).countP (isMissingMsg c) = 0 := by
  rw [List.countP_eq_zero]
  intro a ha
  have he := mem_if_singleton (by unfold formatErrs at ha; exact ha)
  subst he
  simp [isMissingMsg_false_of_ne c _ (fmtMsg_ne_missing _) (fmtMsg_ne_notMarked _ c)]

lemma sizeErrs_countP_missing (rules : CommanderRules) (counts : List (String × Nat))
    (c : String) : (sizeErrs rules counts).countP (isMissingMsg c) = 0 := by
  rw [List.countP_eq_zero]
  intro a ha
  have he := mem_if_singleton (by unfold sizeErrs at ha; exact ha)
  subst he
  simp [isMissingMsg_false_of_ne c _ (sizeMsg_ne_missing _ _) (sizeMsg_ne_notMarked _ _ c)]

lemma perCardErrs_countP_missing (rules : CommanderRules) (counts : List (String × Nat))
    (c : String) : (perCardErrs rules counts).countP (isMissingMsg c) = 0 := by
  rw [List.countP_eq_zero]
  intro a ha
  unfold perCardErrs at ha
  rcases List.mem_flatMap.mp ha with ⟨p, _, hm⟩
  rcases List.mem_append.mp hm with h2 | h2
  · have he := mem_if_singleton h2
    subst he
    simp [isMissingMsg_false_of_ne c _ (bannedMsg_ne_missing _ _) (bannedMsg_ne_notMarked _ _ c)]
  · have he := mem_if_singleton h2
    subst he
    simp [isMissingMsg_false_of_ne c _ (dupMsg_ne_missing _ _) (dupMsg_ne_notMarked _ _ c)]

lemma commanderErrs_countP_missing_one (rules : CommanderRules) (deck : Deck)
    (counts : List (String × Nat)) (entries : List String)
    (h1 : ∀ n ∈ entries, pyCasefold n ≠ pyCasefold deck.commander)
    (h2 : entries = [] → rules.require_commander_tag = true
          ∨ ∀ p ∈ counts, pyCasefold p.1 ≠ pyCasefold deck.commander) :
    (commanderErrs rules deck counts entries).countP (isMissingMsg deck.commander) = 1 := by
  have hany : entries.any (fun n => pyCasefold n == pyCasefold deck.commander) = false := by
    simp only [List.any_eq_false, beq_iff_eq]
    exact h1
  unfold commanderErrs
  rw [List.countP_append]
  cases entries with
  | nil =>
    rw [if_neg (fun h => h rfl)]
    by_cases hreq : rules.require_commander_tag = true
    · rw [if_pos hreq]
      have hfall : (commanderPresent rules deck counts [] = false ∧
          missingReported rules deck [] = false) → False := by
        rintro ⟨_, hr⟩
        rw [show missingReported rules deck [] = rules.require_commander_tag from
          if_neg (fun h => h rfl), hreq] at hr
        cases hr
      rw [if_neg hfall]
      simp [isMissingMsg]
    · rw [if_neg hreq]
      rcases h2 rfl with hr | hcnt
      · exact absurd hr hreq
      · have hpres : commanderPresent rules deck counts [] = false := by
          unfold commanderPresent
          rw [if_neg (fun h => h rfl), if_neg hreq]
          simp only [List.any_eq_false, beq_iff_eq]
          exact hcnt
        have hrep : missingReported rules deck [] = false := by
          unfold missingReported
          rw [if_neg (fun h => h rfl)]
          cases hb : rules.require_commander_tag
          · rfl
          · exact absurd hb hreq
        rw [if_pos ⟨hpres, hrep⟩]
        simp [isMissingMsg]
  | cons e rest =>
    have hne : (e :: rest) ≠ [] := by simp
    rw [if_pos hne]
    rw [List.countP_append, List.countP_append]
    have h0 : ((if (e :: rest).length > rules.max_commander_entries then
        [tooManyMsg (e :: rest).length rules.max_commander_entries] else []).countP
        (isMissingMsg deck.commander)) = 0 := by
      rw [List.countP_eq_zero]
      intro a ha
      have he := mem_if_singleton ha
      subst he
      simp [isMissingMsg_false_of_ne _ _ (tooManyMsg_ne_missing _ _)
        (tooManyMsg_ne_notMarked _ _ _)]
    have h0b : (((e :: rest).flatMap (fun n =>
        if pyCasefold n = pyCasefold deck.commander ∧ countOf counts n ≠ 1 then
          [mustOnceMsg] else [])).countP (isMissingMsg deck.commander)) = 0 := by
      rw [List.countP_eq_zero]
      intro a ha
      rcases List.mem_flatMap.mp ha with ⟨n, _, hm⟩
      have he := mem_if_singleton hm
      subst he
      simp [isMissingMsg_false_of_ne _ _ mustOnceMsg_ne_missing (mustOnceMsg_ne_notMarked _)]
    have h1c : ((if ((e :: rest).any fun n =>
        pyCasefold n == pyCasefold deck.commander) = false then
        [notMarkedMsg deck.commander] else []).countP (isMissingMsg deck.commander)) = 1 := by
      rw [if_pos hany]
      simp [isMissingMsg]
    have hfall : ((if commanderPresent rules deck counts (e :: rest) = false ∧
        missingReported rules deck (e :: rest) = false then [missingMsg] else []).countP
        (isMissingMsg deck.commander)) = 0 := by
      have hrep : missingReported rules deck (e :: rest) = true := by
        unfold missingReported
        rw [if_pos hne, hany]
        rfl
      rw [if_neg (by rintro ⟨_, hr⟩; rw [hrep] at hr; cases hr)]
      rfl
    rw [h0, h0b, h1c, hfall]

/-- C3: whenever commander presence is never established (no tagged name
case-folds to the declared commander and, with no tags, either the rule
set requires a tag or the declared commander is absent from the counts),
validate emits exactly one missing-commander message over the whole
violation list: either the tagged-path not-marked message or the
fallback generic message, and never both in one pass. -/
theorem C3_exactly_one_missing_commander_message (rules : CommanderRules) (deck : Deck)
    (counts : List (String × Nat)) (entries : List String)
    (h1 : ∀ n ∈ entries, pyCasefold n ≠ pyCasefold deck.commander)
    (h2 : entries = [] → rules.require_commander_tag = true
          ∨ ∀ p ∈ counts, pyCasefold p.1 ≠ pyCasefold deck.commander) :
    ((rules.validate deck counts entries).countP (isMissingMsg deck.commander)) = 1 := by
  unfold CommanderRules.validate
  rw [List.countP_append, List.countP_append, List.countP_append,
    formatErrs_countP_missing, sizeErrs_countP_missing, perCardErrs_countP_missing,
    commanderErrs_countP_missing_one rules deck counts entries h1 h2]

/-- Witness for C3: an untagged 99-card deck under the default rule set
(commander tag required) reports its size violation and exactly one
missing-commander message. -/
theorem C3_exactly_one_missing_commander_message_witness :
    ((CommanderRules.validate {} { name := "Tagless", commander := "Atraxa" }
        [("Plains", 99)] []).countP (isMissingMsg "Atraxa")) = 1 :=
  C3_exactly_one_missing_commander_message {} { name := "Tagless", commander := "Atraxa" }
    [("Plains", 99)] [] (by simp) (fun _ => Or.inl rfl)

/-! ## Round-trip development for the codec (C7) -/

/-- A well-formed display value: no surrounding whitespace (so Python
strip leaves it unchanged) and no line-break character inside it (so
Python splitlines keeps it on one line). -/
def wfValB (s : String) : Bool :=
  (match s.data.head? with | some c => !(pyWs c) | none => true)
  && (match s.data.getLast? with | some c => !(pyWs c) | none => true)
  && s.data.all (fun c => !(pyBrk c))

/-- A well-formed optional display value: when present, nonempty and
well formed (the codec drops falsy optional fields). -/
def wfOptB : Option String → Bool
  | none => true
  | some s => (s != "") && wfValB s

/-- A well-formed color code: nonempty, well formed, comma-free. -/
def wfColorB (c : String) : Bool := (c != "") && wfValB c && !(c.data.contains ',')

/-- A record built purely from display fields that the front-matter
format can represent faithfully. -/
def wfDeckB (d : Deck) : Bool :=
  (d.name != "") && wfValB d.name && wfValB d.commander
  && (d.format != "") && wfValB d.format
  && wfOptB d.theme && wfOptB d.created && wfOptB d.updated && wfOptB d.notes
  && d.colors.all wfColorB

lemma wfVal_head (s : String) (h : wfValB s = true) :
    ∀ c, s.data.head? = some c → pyWs c = false := by
  intro c hc
  cases hpw : pyWs c
  · rfl
  · exfalso
    unfold wfValB at h
    rw [hc] at h
    simp [hpw] at h

lemma wfVal_last (s : String) (h : wfValB s = true) :
    ∀ c, s.data.getLast? = some c → pyWs c = false := by
  intro c hc
  cases hpw : pyWs c
  · rfl
  · exfalso
    unfold wfValB at h
    rw [hc] at h
    simp [hpw] at h

lemma wfVal_no_brk (s : String) (h : wfValB s = true) :
    ∀ c ∈ s.data, pyBrk c = false := by
  intro c hc
  unfold wfValB at h
  simp only [Bool.and_eq_true, List.all_eq_true] at h
  have h3 := h.2 c hc
  simpa using h3

lemma wfVal_no_nl (s : String) (h : wfValB s = true) : '\n' ∉ s.data := by
  intro hc
  exact absurd (wfVal_no_brk s h '\n' hc) (by decide)

lemma mem_of_head_opt {α : Type} (l : List α) (c : α) (h : l.head? = some c) : c ∈ l := by
  cases l with
  | nil => cases h
  | cons a t => exact (Option.some.inj h) ▸ List.mem_cons_self a t

lemma mem_of_getLast_opt {α : Type} (l : List α) (c : α) (h : l.getLast? = some c) : c ∈ l := by
  rw [← List.head?_reverse] at h
  exact List.mem_reverse.mp (mem_of_head_opt _ _ h)

lemma dropWhile_of_head (p : Char → Bool) (l : List Char)
    (h : ∀ c, l.head? = some c → p c = false) : l.dropWhile p = l := by
  cases l with
  | nil => rfl
  | cons c t => simp [List.dropWhile_cons, h c rfl]

lemma stripL_edges (l : List Char)
    (hh : ∀ c, l.head? = some c → pyWs c = false)
    (hl : ∀ c, l.getLast? = some c → pyWs c = false) : pyStripL l = l := by
  unfold pyStripL
  rw [dropWhile_of_head pyWs l hh,
    dropWhile_of_head pyWs l.reverse (fun c hc => hl c (by rwa [List.head?_reverse] at hc))]
  exact List.reverse_reverse l

lemma wfVal_strip (s : String) (h : wfValB s = true) : pyStripL s.data = s.data :=
  stripL_edges _ (wfVal_head s h) (wfVal_last s h)

lemma stripL_all_nonws (l : List Char) (h : ∀ c ∈ l, pyWs c = false) : pyStripL l = l :=
  stripL_edges l (fun c hc => h c (mem_of_head_opt _ _ hc))
    (fun c hc => h c (mem_of_getLast_opt _ _ hc))

lemma stripL_cons_ws (c : Char) (l : List Char) (hc : pyWs c = true) :
    pyStripL (c :: l) = pyStripL l := by
  unfold pyStripL
  rw [List.dropWhile_cons, if_pos hc]

lemma dropWhile_all_append (p : Char → Bool) (l m : List Char) (c : Char)
    (hl : ∀ x ∈ l, p x = true) (hc : p c = false) :
    ((l ++ c :: m).dropWhile p) = c :: m := by
  induction l with
  | nil => simp [List.dropWhile, hc]
  | cons a t ih =>
    have ha := hl a (by simp)
    simp [List.dropWhile, ha, ih fun x hx => hl x (by simp [hx])]

lemma splitOnChar_of_not_mem (c : Char) (l : List Char) (h : c ∉ l) :
    splitOnChar c l = [l] := by
  induction l with
  | nil => rfl
  | cons a t ih =>
    have ha : ¬ a = c := fun he => h (he ▸ List.mem_cons_self a t)
    have ht := ih (fun hm => h (List.mem_cons_of_mem a hm))
    simp [splitOnChar, ha, ht]

lemma splitOnChar_ne_nil (c : Char) (l : List Char) : splitOnChar c l ≠ [] := by
  cases l with
  | nil => simp [splitOnChar]
  | cons a t =>
    by_cases ha : a = c
    · simp [splitOnChar, ha]
    · simp only [splitOnChar, if_neg ha]
      cases splitOnChar c t <;> simp

lemma splitOnChar_append_cons (c : Char) (l r : List Char) (h : c ∉ l) :
    splitOnChar c (l ++ c :: r) = l :: splitOnChar c r := by
  induction l with
  | nil => simp [splitOnChar]
  | cons a t ih =>
    have ha : ¬ a = c := fun he => h (he ▸ List.mem_cons_self a t)
    have ht : splitOnChar c (t.append (c :: r)) = t :: splitOnChar c r :=
      ih (fun hm => h (List.mem_cons_of_mem a hm))
    simp only [List.cons_append, splitOnChar, if_neg ha]
    rw [ht]

/-- A front-matter pair the codec can rerender and rescan: the key is
nonempty with no whitespace and no colon, the value well formed. -/
def goodKV (p : String × String) : Prop :=
  p.1.data ≠ [] ∧ (∀ c ∈ p.1.data, pyWs c = false ∧ c ≠ ':') ∧ wfValB p.2 = true

lemma head_opt_append {α : Type} (k r : List α) (hk : k ≠ []) :
    (k ++ r).head? = k.head? := by
  cases k with
  | nil => exact absurd rfl hk
  | cons a t => rfl

lemma stripL_kv_of_ne (k v : List Char) (hk_ne : k ≠ []) (hk : ∀ c ∈ k, pyWs c = false)
    (hv_head : ∀ c, v.head? = some c → pyWs c = false)
    (hv_last : ∀ c, v.getLast? = some c → pyWs c = false) (hv_ne : v ≠ []) :
    pyStripL (k ++ ':' :: ' ' :: v) = k ++ ':' :: ' ' :: v := by
  apply stripL_edges
  · intro c hc
    rw [head_opt_append k _ hk_ne] at hc
    exact hk c (mem_of_head_opt _ _ hc)
  · intro c hc
    rw [← List.head?_reverse] at hc
    rw [show (k ++ ':' :: ' ' :: v).reverse = v.reverse ++ (' ' :: ':' :: k.reverse) by
      simp] at hc
    rw [head_opt_append _ _ (fun he => hv_ne (by simpa using congrArg List.reverse he))] at hc
    rw [List.head?_reverse] at hc
    exact hv_last c hc

lemma stripL_kv_of_empty (k : List Char) (hk_ne : k ≠ []) (hk : ∀ c ∈ k, pyWs c = false) :
    pyStripL (k ++ [':', ' ']) = k ++ [':'] := by
  unfold pyStripL
  have h1 : (k ++ [':', ' ']).dropWhile pyWs = k ++ [':', ' '] :=
    dropWhile_of_head pyWs _ (by
      intro c hc
      rw [head_opt_append k _ hk_ne] at hc
      exact hk c (mem_of_head_opt _ _ hc))
  rw [h1, show (k ++ [':', ' ']).reverse = ' ' :: ':' :: k.reverse by simp,
    List.dropWhile_cons, if_pos (show pyWs ' ' = true by decide),
    List.dropWhile_cons, if_neg (show ¬ pyWs ':' = true by decide)]
  simp

lemma scanMeta_step (p : String × String) (hp : goodKV p) (rest : List String)
    (md : List (String × String)) :
    scanMeta (renderKV p :: rest) md = scanMeta rest (dictSet md p.1 p.2) := by
  obtain ⟨hk_ne, hk, hv⟩ := hp
  have hkw : ∀ c ∈ p.1.data, pyWs c = false := fun c hc => (hk c hc).1
  have hkc : ∀ c ∈ p.1.data, decide (c ≠ ':') = true := by
    intro c hc
    simp [(hk c hc).2]
  have hdata : (renderKV p).data = p.1.data ++ ':' :: ' ' :: p.2.data := by
    simp [renderKV, data_append]
  have hbase : ∀ X : List Char, (pyStrip (renderKV p)).data = p.1.data ++ ':' :: X →
      pyStrip (renderKV p) ≠ FRONT_MATTER_MARK
        ∧ (pyStrip (renderKV p) ≠ "" ∧ ':' ∈ (pyStrip (renderKV p)).data)
        ∧ (⟨pyStripL (beforeColon (pyStrip (renderKV p)).data)⟩ : String) = p.1
        ∧ (⟨pyStripL (afterColon (pyStrip (renderKV p)).data)⟩ : String)
            = (⟨pyStripL X⟩ : String) := by
    intro X hstrip
    have hcolon : ':' ∈ (pyStrip (renderKV p)).data := by
      rw [hstrip]
      simp
    refine ⟨?_, ⟨?_, hcolon⟩, ?_, ?_⟩
    · intro he
      rw [he] at hcolon
      exact absurd hcolon (by decide)
    · intro he
      have h2 := congrArg String.data he
      rw [hstrip] at h2
      simp at h2
    · rw [hstrip]
      unfold beforeColon
      rw [takeWhile_all_append _ _ _ _ hkc (by simp), stripL_all_nonws _ hkw]
    · rw [hstrip]
      unfold afterColon
      rw [dropWhile_all_append _ _ _ _ hkc (by simp), List.drop_one, List.tail_cons]
  by_cases hve : p.2.data = []
  · have hstrip2 : (pyStrip (renderKV p)).data = p.1.data ++ ':' :: [] := by
      show pyStripL (renderKV p).data = _
      rw [hdata, hve]
      exact stripL_kv_of_empty _ hk_ne hkw
    obtain ⟨hmark, hcond, hkey, hval⟩ := hbase [] hstrip2
    simp only [scanMeta]
    rw [if_neg hmark, if_pos hcond, hkey, hval]
    have hp2 : (⟨pyStripL []⟩ : String) = p.2 := by
      have h3 : p.2 = (⟨[]⟩ : String) := by
        cases hq : p.2 with
        | mk d =>
          rw [hq] at hve
          simp only at hve
          rw [hve]
      rw [h3]
      rfl
    rw [hp2]
  · have hstrip : (pyStrip (renderKV p)).data = p.1.data ++ ':' :: (' ' :: p.2.data) := by
      show pyStripL (renderKV p).data = _
      rw [hdata]
      exact stripL_kv_of_ne _ _ hk_ne hkw (wfVal_head _ hv) (wfVal_last _ hv) hve
    obtain ⟨hmark, hcond, hkey, hval⟩ := hbase _ hstrip
    simp only [scanMeta]
    rw [if_neg hmark, if_pos hcond, hkey, hval]
    have hp2 : (⟨pyStripL (' ' :: p.2.data)⟩ : String) = p.2 := by
      rw [stripL_cons_ws _ _ (by decide), wfVal_strip _ hv]
    rw [hp2]

lemma scanMeta_kvs (kvs : List (String × String)) (rest : List String)
    (md : List (String × String)) (h : ∀ p ∈ kvs, goodKV p) :
    scanMeta ((kvs.map renderKV) ++ FRONT_MATTER_MARK :: rest) md
      = kvs.foldl (fun m p => dictSet m p.1 p.2) md := by
  induction kvs generalizing md with
  | nil =>
    show scanMeta (FRONT_MATTER_MARK :: rest) md = md
    simp only [scanMeta]
    rw [if_pos (show pyStrip FRONT_MATTER_MARK = FRONT_MATTER_MARK from by decide)]
  | cons p r ih =>
    rw [List.map_cons, List.cons_append,
      scanMeta_step p (h p (by simp)) _ md, ih _ (fun q hq => h q (by simp [hq])),
      List.foldl_cons]

lemma dictGet_dictSet (m : List (String × String)) (k v k2 : String) :
    dictGet (dictSet m k v) k2 = if k = k2 then some v else dictGet m k2 := by
  induction m with
  | nil =>
    by_cases h : k = k2 <;> simp [dictSet, dictGet, h]
  | cons p r ih =>
    obtain ⟨pk, pv⟩ := p
    by_cases hpk : pk = k
    · subst hpk
      by_cases h2 : pk = k2 <;> simp [dictSet, dictGet, h2]
    · by_cases h2 : pk = k2
      · subst h2
        have h3 : ¬ k = pk := fun he => hpk he.symm
        simp [dictSet, dictGet, hpk, h3]
      · simp [dictSet, dictGet, hpk, h2, ih]

lemma dictGet_fold_not_mem (kvs : List (String × String)) (md : List (String × String))
    (k : String) (h : ∀ p ∈ kvs, p.1 ≠ k) :
    dictGet (kvs.foldl (fun m p => dictSet m p.1 p.2) md) k = dictGet md k := by
  induction kvs generalizing md with
  | nil => rfl
  | cons p r ih =>
    rw [List.foldl_cons, ih _ (fun q hq => h q (by simp [hq])), dictGet_dictSet,
      if_neg (h p (by simp))]

lemma dictGet_fold_mem (kvs : List (String × String)) :
    ∀ (md : List (String × String)) (k v : String),
      (kvs.map Prod.fst).Nodup → (k, v) ∈ kvs →
      dictGet (kvs.foldl (fun m p => dictSet m p.1 p.2) md) k = some v := by
  induction kvs with
  | nil =>
    intro md k v _ hm
    cases hm
  | cons p r ih =>
    intro md k v hnd hm
    rw [List.map_cons, List.nodup_cons] at hnd
    rcases List.mem_cons.mp hm with rfl | hmr
    · rw [List.foldl_cons,
        dictGet_fold_not_mem r _ k (fun q hq he =>
          hnd.1 (List.mem_map.mpr ⟨q, hq, he⟩)),
        dictGet_dictSet, if_pos rfl]
    · rw [List.foldl_cons]
      exact ih _ k v hnd.2 hmr

lemma wfValB_of (s : String) (hh : ∀ c, s.data.head? = some c → pyWs c = false)
    (hl : ∀ c, s.data.getLast? = some c → pyWs c = false)
    (hn : ∀ c ∈ s.data, pyBrk c = false) :
    wfValB s = true := by
  unfold wfValB
  have h1 : (match s.data.head? with | some c => !(pyWs c) | none => true) = true := by
    cases hhd : s.data.head? with
    | none => rfl
    | some c => simp [hh c hhd]
  have h2 : (match s.data.getLast? with | some c => !(pyWs c) | none => true) = true := by
    cases hhd : s.data.getLast? with
    | none => rfl
    | some c => simp [hl c hhd]
  have h3 : s.data.all (fun c => !(pyBrk c)) = true := by
    rw [List.all_eq_true]
    intro c hc
    simp [hn c hc]
  rw [h1, h2, h3]
  rfl

lemma getLast_opt_append {α : Type} (a b : List α) (hb : b ≠ []) :
    (a ++ b).getLast? = b.getLast? := by
  rw [← List.head?_reverse, List.reverse_append,
    head_opt_append _ _ (by simpa using hb), List.head?_reverse]

lemma mem_intercalateC (sep : List Char) (ls : List (List Char)) (c : Char) :
    c ∈ intercalateC sep ls → c ∈ sep ∨ ∃ l ∈ ls, c ∈ l := by
  induction ls with
  | nil =>
    intro hc
    cases hc
  | cons x t ih =>
    intro hc
    cases t with
    | nil =>
      simp only [intercalateC] at hc
      exact Or.inr ⟨x, by simp, hc⟩
    | cons y t2 =>
      simp only [intercalateC] at hc
      rcases List.mem_append.mp hc with h | h
      · rcases List.mem_append.mp h with h2 | h2
        · exact Or.inr ⟨x, by simp, h2⟩
        · exact Or.inl h2
      · rcases ih h with h2 | ⟨l, hl, hcl⟩
        · exact Or.inl h2
        · exact Or.inr ⟨l, by simp [hl], hcl⟩

lemma wfColor_parts (c : String) (h : wfColorB c = true) :
    c.data ≠ [] ∧ wfValB c = true ∧ ',' ∉ c.data := by
  unfold wfColorB at h
  simp only [Bool.and_eq_true, bne_iff_ne] at h
  refine ⟨?_, h.1.2, ?_⟩
  · intro he
    apply h.1.1
    cases hq : c with
    | mk d =>
      rw [hq] at he
      simp only at he
      rw [he]
  · intro hm
    have h3 := h.2
    simp at h3
    exact h3 hm

lemma intercalate_ne_nil (sep : List Char) (x : List Char) (t : List (List Char))
    (hx : x ≠ []) : intercalateC sep (x :: t) ≠ [] := by
  cases t with
  | nil => simpa [intercalateC] using hx
  | cons y u =>
    simp only [intercalateC]
    simp [hx]

lemma joinCS_head (cs : List String) (x : String) (t : List String) (hcs : cs = x :: t)
    (hx : x.data ≠ []) : (joinCommaSpace cs).data.head? = x.data.head? := by
  subst hcs
  show (intercalateC [',', ' '] (x.data :: t.map String.data)).head? = _
  cases t with
  | nil => rfl
  | cons y u =>
    simp only [intercalateC]
    rw [List.append_assoc, head_opt_append _ _ hx]

lemma joinCS_last (cs : List String) (h : ∀ c ∈ cs, c.data ≠ []) (hne : cs ≠ []) :
    ∃ x ∈ cs, (joinCommaSpace cs).data.getLast? = x.data.getLast? := by
  induction cs with
  | nil => cases hne rfl
  | cons x t ih =>
    cases t with
    | nil =>
      exact ⟨x, by simp, rfl⟩
    | cons y u =>
      obtain ⟨z, hz, hzl⟩ := ih (fun c hc => h c (by simp [hc])) (by simp)
      refine ⟨z, by simp [hz], ?_⟩
      show ((x.data ++ [',', ' '])
          ++ intercalateC [',', ' '] (y.data :: u.map String.data)).getLast? = z.data.getLast?
      rw [getLast_opt_append _ _ (intercalate_ne_nil _ _ _ (h y (by simp)))]
      exact hzl

lemma joinCS_wf (cs : List String) (hne : cs ≠ []) (h : ∀ c ∈ cs, wfColorB c = true) :
    wfValB (joinCommaSpace cs) = true := by
  obtain ⟨x, t, hcs⟩ : ∃ x t, cs = x :: t := by
    cases cs with
    | nil => cases hne rfl
    | cons x t => exact ⟨x, t, rfl⟩
  have hpart : ∀ c ∈ cs, c.data ≠ [] ∧ wfValB c = true ∧ ',' ∉ c.data :=
    fun c hc => wfColor_parts c (h c hc)
  apply wfValB_of
  · intro c hc
    rw [joinCS_head cs x t hcs (hpart x (by simp [hcs])).1] at hc
    exact wfVal_head x (hpart x (by simp [hcs])).2.1 c hc
  · intro c hc
    obtain ⟨z, hz, hzl⟩ := joinCS_last cs (fun c hc => (hpart c hc).1) hne
    rw [hzl] at hc
    exact wfVal_last z (hpart z hz).2.1 c hc
  · intro c hc
    rcases mem_intercalateC _ _ _ hc with h2 | ⟨l, hl, hcl⟩
    · have h3 : c = ',' ∨ c = ' ' := by simpa using h2
      rcases h3 with rfl | rfl <;> decide
    · rcases List.mem_map.mp hl with ⟨z, hz, rfl⟩
      exact wfVal_no_brk z (hpart z hz).2.1 c hcl

lemma mem_if_pair {c : Prop} [Decidable c] {x a : String × String}
    (h : a ∈ (if c then [x] else [])) : c ∧ a = x := by
  split at h
  · exact ⟨by assumption, by simpa using h⟩
  · cases h

lemma mem_opt_block (key : String) (o : Option String) (p : String × String)
    (hp : p ∈ (match o with
      | some t => if t ≠ "" then [(key, t)] else []
      | none => ([] : List (String × String)))) :
    ∃ t, o = some t ∧ t ≠ "" ∧ p = (key, t) := by
  cases o with
  | none => cases hp
  | some t =>
    obtain ⟨hc, he⟩ := mem_if_pair hp
    exact ⟨t, rfl, hc, he⟩

lemma kvs_mem (d : Deck) (p : String × String) (hp : p ∈ d.frontKVs) :
    p = ("name", d.name) ∨ p = ("commander", d.commander)
    ∨ (d.colors ≠ [] ∧ p = ("colors", joinCommaSpace d.colors))
    ∨ (∃ t, d.theme = some t ∧ t ≠ "" ∧ p = ("theme", t))
    ∨ (d.format ≠ "" ∧ p = ("format", d.format))
    ∨ (∃ t, d.created = some t ∧ t ≠ "" ∧ p = ("created", t))
    ∨ (∃ t, d.updated = some t ∧ t ≠ "" ∧ p = ("updated", t))
    ∨ (∃ t, d.notes = some t ∧ t ≠ "" ∧ p = ("notes", t)) := by
  unfold Deck.frontKVs at hp
  rcases List.mem_append.mp hp with hp | hp
  · rcases List.mem_append.mp hp with hp | hp
    · rcases List.mem_append.mp hp with hp | hp
      · rcases List.mem_append.mp hp with hp | hp
        · rcases List.mem_append.mp hp with hp | hp
          · rcases List.mem_append.mp hp with hp | hp
            · rcases List.mem_cons.mp hp with h | h
              · exact Or.inl h
              · exact Or.inr (Or.inl (by simpa using h))
            · obtain ⟨hc, he⟩ := mem_if_pair hp
              exact Or.inr (Or.inr (Or.inl ⟨hc, he⟩))
          · exact Or.inr (Or.inr (Or.inr (Or.inl (mem_opt_block _ _ _ hp))))
        · obtain ⟨hc, he⟩ := mem_if_pair hp
          exact Or.inr (Or.inr (Or.inr (Or.inr (Or.inl ⟨hc, he⟩))))
      · exact Or.inr (Or.inr (Or.inr (Or.inr (Or.inr (Or.inl (mem_opt_block _ _ _ hp))))))
    · exact Or.inr (Or.inr (Or.inr (Or.inr (Or.inr (Or.inr (Or.inl
        (mem_opt_block _ _ _ hp)))))))
  · exact Or.inr (Or.inr (Or.inr (Or.inr (Or.inr (Or.inr (Or.inr
      (mem_opt_block _ _ _ hp)))))))

lemma wfDeck_parts (d : Deck) (h : wfDeckB d = true) :
    d.name ≠ "" ∧ wfValB d.name = true ∧ wfValB d.commander = true
    ∧ d.format ≠ "" ∧ wfValB d.format = true
    ∧ wfOptB d.theme = true ∧ wfOptB d.created = true ∧ wfOptB d.updated = true
    ∧ wfOptB d.notes = true ∧ (∀ c ∈ d.colors, wfColorB c = true) := by
  unfold wfDeckB at h
  simp only [Bool.and_eq_true, bne_iff_ne, List.all_eq_true] at h
  tauto

lemma wfOpt_some (o : Option String) (h : wfOptB o = true) (t : String) (ht : o = some t) :
    t ≠ "" ∧ wfValB t = true := by
  subst ht
  unfold wfOptB at h
  simpa [Bool.and_eq_true, bne_iff_ne] using h

lemma goodKV_of_wf (d : Deck) (h : wfDeckB d = true) : ∀ p ∈ d.frontKVs, goodKV p := by
  intro p hp
  obtain ⟨hn1, hn2, hcm, hf1, hf2, hth, hcr, hup, hno, hcol⟩ := wfDeck_parts d h
  rcases kvs_mem d p hp with he | he | ⟨hc, he⟩ | ⟨t, ht, htn, he⟩ | ⟨hc, he⟩
      | ⟨t, ht, htn, he⟩ | ⟨t, ht, htn, he⟩ | ⟨t, ht, htn, he⟩ <;> subst he
  · exact ⟨(by decide : ("name" : String).data ≠ []),
      (by decide : ∀ c ∈ ("name" : String).data, pyWs c = false ∧ c ≠ ':'), hn2⟩
  · exact ⟨(by decide : ("commander" : String).data ≠ []),
      (by decide : ∀ c ∈ ("commander" : String).data, pyWs c = false ∧ c ≠ ':'), hcm⟩
  · exact ⟨(by decide : ("colors" : String).data ≠ []),
      (by decide : ∀ c ∈ ("colors" : String).data, pyWs c = false ∧ c ≠ ':'),
      joinCS_wf d.colors hc hcol⟩
  · exact ⟨(by decide : ("theme" : String).data ≠ []),
      (by decide : ∀ c ∈ ("theme" : String).data, pyWs c = false ∧ c ≠ ':'),
      (wfOpt_some _ hth t ht).2⟩
  · exact ⟨(by decide : ("format" : String).data ≠ []),
      (by decide : ∀ c ∈ ("format" : String).data, pyWs c = false ∧ c ≠ ':'), hf2⟩
  · exact ⟨(by decide : ("created" : String).data ≠ []),
      (by decide : ∀ c ∈ ("created" : String).data, pyWs c = false ∧ c ≠ ':'),
      (wfOpt_some _ hcr t ht).2⟩
  · exact ⟨(by decide : ("updated" : String).data ≠ []),
      (by decide : ∀ c ∈ ("updated" : String).data, pyWs c = false ∧ c ≠ ':'),
      (wfOpt_some _ hup t ht).2⟩
  · exact ⟨(by decide : ("notes" : String).data ≠ []),
      (by decide : ∀ c ∈ ("notes" : String).data, pyWs c = false ∧ c ≠ ':'),
      (wfOpt_some _ hno t ht).2⟩

lemma kvs_keys_nodup (d : Deck) : ((d.frontKVs).map Prod.fst).Nodup := by
  have hsub : List.Sublist ((d.frontKVs).map Prod.fst)
      (["name", "commander", "colors", "theme", "format", "created", "updated", "notes"]
        : List String) := by
    have h2 : (["name", "commander", "colors", "theme", "format", "created",
        "updated", "notes"] : List String)
        = (((((["name", "commander"] ++ ["colors"]) ++ ["theme"]) ++ ["format"])
            ++ ["created"]) ++ ["updated"]) ++ ["notes"] := rfl
    rw [h2]
    unfold Deck.frontKVs
    simp only [List.map_append]
    refine List.Sublist.append (List.Sublist.append (List.Sublist.append
      (List.Sublist.append (List.Sublist.append (List.Sublist.append ?_ ?_) ?_) ?_) ?_) ?_) ?_
    · simp
    · split <;> simp
    · cases d.theme with
      | none => simp
      | some t => by_cases hte : t = "" <;> simp [hte]
    · split <;> simp
    · cases d.created with
      | none => simp
      | some t => by_cases hte : t = "" <;> simp [hte]
    · cases d.updated with
      | none => simp
      | some t => by_cases hte : t = "" <;> simp [hte]
    · cases d.notes with
      | none => simp
      | some t => by_cases hte : t = "" <;> simp [hte]
  exact List.Nodup.sublist hsub (by decide)

lemma intercalateC_cons_append (sep : List Char) (x : List Char) (t B : List (List Char))
    (hB : B ≠ []) :
    intercalateC sep ((x :: t) ++ B)
      = intercalateC sep (x :: t) ++ sep ++ intercalateC sep B := by
  induction t generalizing x with
  | nil =>
    cases B with
    | nil => exact absurd rfl hB
    | cons y u => simp [intercalateC]
  | cons z u ih =>
    have h2 := ih z
    show intercalateC sep (x :: ((z :: u) ++ B)) = _
    have h3 : (z :: u) ++ B = z :: (u ++ B) := rfl
    rw [h3]
    simp only [intercalateC]
    rw [show z :: (u ++ B) = (z :: u) ++ B from rfl, h2]
    simp [List.append_assoc]

lemma split_intercalate : ∀ (fm : List (List Char)), fm ≠ [] → (∀ l ∈ fm, '\n' ∉ l) →
    ∀ tail, splitOnChar '\n' (intercalateC ['\n'] fm ++ '\n' :: tail)
      = fm ++ splitOnChar '\n' tail := by
  intro fm
  induction fm with
  | nil =>
    intro hne
    exact absurd rfl hne
  | cons x t ih =>
    intro _ h tail
    cases t with
    | nil =>
      simp only [intercalateC]
      rw [splitOnChar_append_cons _ _ _ (h x (by simp))]
      rfl
    | cons y u =>
      simp only [intercalateC]
      rw [show (x ++ ['\n'] ++ intercalateC ['\n'] (y :: u)) ++ '\n' :: tail
          = x ++ '\n' :: (intercalateC ['\n'] (y :: u) ++ '\n' :: tail) by
        simp [List.append_assoc]]
      rw [splitOnChar_append_cons _ _ _ (h x (by simp)),
        ih (by simp) (fun l hl => h l (by simp [hl])) tail]
      rfl

lemma map_mk_data (ls : List String) :
    ((ls.map String.data).map (fun d => (⟨d⟩ : String))) = ls := by
  induction ls with
  | nil => rfl
  | cons x t ih => simp [ih]

lemma renderKV_no_nl (p : String × String) (hp : goodKV p) : '\n' ∉ (renderKV p).data := by
  obtain ⟨hk_ne, hk, hv⟩ := hp
  intro hm
  rw [show (renderKV p).data = p.1.data ++ ':' :: ' ' :: p.2.data by
    simp [renderKV, data_append]] at hm
  rcases List.mem_append.mp hm with h | h
  · have h2 := (hk _ h).1
    exact absurd h2 (by decide)
  · rcases List.mem_cons.mp h with h2 | h2
    · cases h2
    · rcases List.mem_cons.mp h2 with h3 | h3
      · cases h3
      · exact wfVal_no_nl _ hv h3

lemma pyWs_of_brk (c : Char) (h : pyBrk c = true) : pyWs c = true := by
  unfold pyBrk at h
  simp only [Bool.or_eq_true, decide_eq_true_eq, or_assoc] at h
  rcases h with h | h | h | h | h | h | h | h | h | h <;> subst h <;> decide

lemma splitlinesAux_cons_eq (c : Char) (r acc : List Char) (b : Bool) :
    splitlinesAux (c :: r) acc b =
      if b ∧ c = '\n' then splitlinesAux r [] false
      else if c = '\r' then acc.reverse :: splitlinesAux r [] true
      else if pyBrk c then acc.reverse :: splitlinesAux r [] false
      else splitlinesAux r (c :: acc) false := rfl

lemma splitlinesAux_cons_brk (c : Char) (r acc : List Char) (hc : ¬ c = '\r')
    (hb : pyBrk c = true) :
    splitlinesAux (c :: r) acc false = acc.reverse :: splitlinesAux r [] false := by
  rw [splitlinesAux_cons_eq]
  rw [if_neg (by simp), if_neg hc, if_pos hb]

lemma splitlinesAux_cons_nb (c : Char) (r acc : List Char) (hb : pyBrk c = false) :
    splitlinesAux (c :: r) acc false = splitlinesAux r (c :: acc) false := by
  have hc : ¬ c = '\r' := by
    intro he
    rw [he] at hb
    exact absurd hb (by decide)
  rw [splitlinesAux_cons_eq]
  rw [if_neg (by simp), if_neg hc, if_neg (by simp [hb])]

/-- Keep a list of pieces but rewrite its first piece. -/
def mapHead (f : List Char → List Char) : List (List Char) → List (List Char)
  | [] => []
  | x :: t => f x :: t

/-- Drop a final empty piece, as Python splitlines does after a trailing
line break. -/
def dropTrailNil (m : List (List Char)) : List (List Char) :=
  if m.getLast? = some [] then m.dropLast else m

lemma dropTrailNil_cons (x b : List Char) (l : List (List Char)) :
    dropTrailNil (x :: b :: l) = x :: dropTrailNil (b :: l) := by
  unfold dropTrailNil
  rw [show (x :: b :: l).getLast? = (b :: l).getLast? from
    getLast_opt_append [x] (b :: l) (by simp)]
  by_cases h2 : (b :: l).getLast? = some []
  · rw [if_pos h2, if_pos h2]
    rfl
  · rw [if_neg h2, if_neg h2]

lemma mapHead_nil_acc (m : List (List Char)) :
    mapHead (fun x => ([] : List Char).reverse ++ x) m = m := by
  cases m <;> simp [mapHead]

lemma splitlinesAux_nl (l : List Char) (h : ∀ c ∈ l, pyBrk c = true → c = '\n') :
    ∀ acc, splitlinesAux l acc false
      = dropTrailNil (mapHead (fun x => acc.reverse ++ x) (splitOnChar '\n' l)) := by
  induction l with
  | nil =>
    intro acc
    show (if acc = [] then [] else [acc.reverse]) = _
    by_cases ha : acc = []
    · subst ha
      rfl
    · rw [if_neg ha]
      show [acc.reverse] = dropTrailNil [acc.reverse ++ []]
      rw [List.append_nil]
      unfold dropTrailNil
      rw [if_neg (by
        intro hco
        have h3 : some acc.reverse = some ([] : List Char) := hco
        have h4 : acc.reverse = [] := Option.some.inj h3
        exact ha (by simpa using congrArg List.reverse h4))]
  | cons c r ih =>
    intro acc
    by_cases hcn : c = '\n'
    · subst hcn
      rw [splitlinesAux_cons_brk _ _ _ (by decide) (by decide)]
      rw [ih (fun x hx hb => h x (by simp [hx]) hb) []]
      rw [mapHead_nil_acc]
      rw [show splitOnChar '\n' ('\n' :: r) = [] :: splitOnChar '\n' r from by
        simp [splitOnChar]]
      obtain ⟨b, m, hbm⟩ : ∃ b m, splitOnChar '\n' r = b :: m := by
        cases hs : splitOnChar '\n' r with
        | nil => exact absurd hs (splitOnChar_ne_nil _ _)
        | cons a t => exact ⟨a, t, rfl⟩
      rw [hbm]
      show acc.reverse :: dropTrailNil (b :: m)
          = dropTrailNil ((acc.reverse ++ []) :: b :: m)
      rw [List.append_nil, dropTrailNil_cons]
    · have hbrk : pyBrk c = false := by
        cases hb : pyBrk c
        · rfl
        · exact absurd (h c (by simp) hb) hcn
      rw [splitlinesAux_cons_nb _ _ _ hbrk]
      rw [ih (fun x hx hb => h x (by simp [hx]) hb) (c :: acc)]
      obtain ⟨h0, t0, hsp⟩ : ∃ h0 t0, splitOnChar '\n' r = h0 :: t0 := by
        cases hs : splitOnChar '\n' r with
        | nil => exact absurd hs (splitOnChar_ne_nil _ _)
        | cons a t => exact ⟨a, t, rfl⟩
      rw [show splitOnChar '\n' (c :: r) = (c :: h0) :: t0 from by
        simp only [splitOnChar, if_neg hcn]
        rw [hsp]]
      rw [hsp]
      show dropTrailNil (((c :: acc).reverse ++ h0) :: t0)
          = dropTrailNil ((acc.reverse ++ (c :: h0)) :: t0)
      rw [List.reverse_cons, List.append_assoc]
      rfl

lemma getLast_opt_map (f : List Char → String) (l : List (List Char)) :
    (l.map f).getLast? = l.getLast?.map f := by
  induction l with
  | nil => rfl
  | cons a t ih =>
    cases t with
    | nil => rfl
    | cons b u =>
      show (f a :: (b :: u).map f).getLast? = ((a :: b :: u).getLast?).map f
      rw [show (f a :: (b :: u).map f).getLast? = ((b :: u).map f).getLast? from
        getLast_opt_append [f a] _ (by simp)]
      rw [show (a :: b :: u).getLast? = (b :: u).getLast? from
        getLast_opt_append [a] _ (by simp)]
      exact ih

lemma map_dropLast_comm (f : List Char → String) (l : List (List Char)) :
    l.dropLast.map f = (l.map f).dropLast := by
  induction l with
  | nil => rfl
  | cons a t ih =>
    cases t with
    | nil => rfl
    | cons b u =>
      show (a :: (b :: u).dropLast).map f = (f a :: (b :: u).map f).dropLast
      rw [show (f a :: (b :: u).map f).dropLast = f a :: ((b :: u).map f).dropLast from rfl]
      rw [List.map_cons, ih]

/-- On text whose only line-break character is the newline, the full
splitlines model agrees with the newline-only splitter. -/
lemma pySplitlines_eq_nl (s : String) (h : ∀ c ∈ s.data, pyBrk c = true → c = '\n') :
    pySplitlines s = nlSplitlines s := by
  unfold pySplitlines nlSplitlines
  rw [splitlinesAux_nl s.data h [], mapHead_nil_acc]
  show (dropTrailNil (splitOnChar '\n' s.data)).map (fun d => (⟨d⟩ : String))
      = (if ((splitOnChar '\n' s.data).map (fun d => (⟨d⟩ : String))).getLast? = some "" then
          ((splitOnChar '\n' s.data).map (fun d => (⟨d⟩ : String))).dropLast
        else (splitOnChar '\n' s.data).map (fun d => (⟨d⟩ : String)))
  unfold dropTrailNil
  by_cases hnil : (splitOnChar '\n' s.data).getLast? = some []
  · rw [if_pos hnil, if_pos (by rw [getLast_opt_map, hnil]; rfl)]
    exact map_dropLast_comm _ _
  · rw [if_neg hnil, if_neg (by
      rw [getLast_opt_map]
      intro hco
      cases hx : (splitOnChar '\n' s.data).getLast? with
      | none => rw [hx] at hco; cases hco
      | some x =>
        rw [hx] at hco
        have h2 : (⟨x⟩ : String) = "" := Option.some.inj hco
        exact hnil (by rw [hx, show x = ([] : List Char) from congrArg String.data h2]))]

lemma renderKV_no_brk (p : String × String) (hp : goodKV p) :
    ∀ c ∈ (renderKV p).data, pyBrk c = false := by
  obtain ⟨hk_ne, hk, hv⟩ := hp
  intro c hc
  rw [show (renderKV p).data = p.1.data ++ ':' :: ' ' :: p.2.data by
    simp [renderKV, data_append]] at hc
  rcases List.mem_append.mp hc with h1 | h1
  · cases hbv : pyBrk c
    · rfl
    · exact absurd (pyWs_of_brk c hbv) (by simp [(hk c h1).1])
  · rcases List.mem_cons.mp h1 with rfl | h1
    · decide
    · rcases List.mem_cons.mp h1 with rfl | h1
      · decide
      · exact wfVal_no_brk p.2 hv c h1

lemma only_nl_lit_val (lit v : String) (hlit : ∀ c ∈ lit.data, pyBrk c = false)
    (hv : wfValB v = true) :
    ∀ c ∈ (lit ++ v).data, pyBrk c = true → c = '\n' := by
  intro c hc hb
  rw [data_append] at hc
  rcases List.mem_append.mp hc with h1 | h1
  · exact absurd hb (by simp [hlit c h1])
  · exact absurd hb (by simp [wfVal_no_brk v hv c h1])

lemma bodyLines_only_nl (d : Deck) (hd : wfDeckB d = true) :
    ∀ s ∈ d.bodyLines, ∀ c ∈ s.data, pyBrk c = true → c = '\n' := by
  obtain ⟨hn1, hn2, hcm, hf1, hf2, hth, hcr, hup, hno, hcol⟩ := wfDeck_parts d hd
  intro s hs
  unfold Deck.bodyLines at hs
  rcases List.mem_append.mp hs with hs1 | hs1
  · rcases List.mem_append.mp hs1 with hs2 | hs2
    · rcases List.mem_append.mp hs2 with hs3 | hs3
      · rcases List.mem_cons.mp hs3 with rfl | hs4
        · exact only_nl_lit_val "# " d.name (by decide) hn2
        · rw [show s = "**Commander:** " ++ d.commander by simpa using hs4]
          exact only_nl_lit_val "**Commander:** " d.commander (by decide) hcm
      · cases hthm : d.theme with
        | none =>
          rw [hthm] at hs3
          change s ∈ ([] : List String) at hs3
          cases hs3
        | some t =>
          rw [hthm] at hs3
          change s ∈ (if t ≠ "" then ["**Theme:** " ++ t] else []) at hs3
          by_cases hte : t ≠ ""
          · rw [if_pos hte] at hs3
            rw [show s = "**Theme:** " ++ t by simpa using hs3]
            exact only_nl_lit_val "**Theme:** " t (by decide) (wfOpt_some _ hth t hthm).2
          · rw [if_neg hte] at hs3
            cases hs3
    · by_cases hcne : d.colors ≠ []
      · rw [if_pos hcne] at hs2
        rw [show s = "**Colors:** " ++ joinCommaSpace d.colors by simpa using hs2]
        exact only_nl_lit_val "**Colors:** " (joinCommaSpace d.colors) (by decide)
          (joinCS_wf d.colors hcne hcol)
      · rw [if_neg hcne] at hs2
        cases hs2
  · rcases List.mem_cons.mp hs1 with rfl | hs2
    · decide
    · rcases List.mem_cons.mp hs2 with rfl | hs3
      · exact only_nl_lit_val "- [Commander] " d.commander (by decide) hcm
      · rw [show s = "- ... add the rest of your cards here ..." by simpa using hs3]
        intro c hc hb
        exact absurd hb (by
          simp [(show ∀ x ∈ ("- ... add the rest of your cards here ..." : String).data,
            pyBrk x = false by decide) c hc])

/-- Every line-break character in a serialized well-formed record is the
newline the codec itself inserts. -/
lemma to_markdown_only_nl (d : Deck) (hd : wfDeckB d = true) :
    ∀ c ∈ (Deck.to_markdown d).data, pyBrk c = true → c = '\n' := by
  have hkv := goodKV_of_wf d hd
  intro c hc hb
  have hdat : (Deck.to_markdown d).data
      = intercalateC ['\n'] (((FRONT_MATTER_MARK :: (d.frontKVs.map renderKV)
          ++ [FRONT_MATTER_MARK]) ++ ["\n"] ++ d.bodyLines).map String.data) ++ ['\n'] := by
    show (joinLines _ ++ "\n").data = _
    rw [data_append]
    rfl
  rw [hdat] at hc
  rcases List.mem_append.mp hc with h1 | h1
  · rcases mem_intercalateC _ _ _ h1 with hsep | ⟨l, hl, hcl⟩
    · simpa using hsep
    · rcases List.mem_map.mp hl with ⟨s, hsL, rfl⟩
      rcases List.mem_append.mp hsL with hs1 | hs1
      · rcases List.mem_append.mp hs1 with hs2 | hs2
        · rcases List.mem_cons.mp hs2 with rfl | hs3
          · exact absurd hb (by
              simp [(show ∀ x ∈ (FRONT_MATTER_MARK : String).data, pyBrk x = false
                by decide) c hcl])
          · rcases List.mem_append.mp hs3 with hs4 | hs4
            · rcases List.mem_map.mp hs4 with ⟨p, hp, rfl⟩
              exact absurd hb (by simp [renderKV_no_brk p (hkv p hp) c hcl])
            · rw [show s = FRONT_MATTER_MARK by simpa using hs4] at hcl
              exact absurd hb (by
                simp [(show ∀ x ∈ (FRONT_MATTER_MARK : String).data, pyBrk x = false
                  by decide) c hcl])
        · rw [show s = "\n" by simpa using hs2] at hcl
          simpa using hcl
      · exact bodyLines_only_nl d hd s hs1 c hcl hb
  · simpa using h1

lemma splitlines_if_shape (A B : List String) (hB : B ≠ []) :
    ∃ C, (if (A ++ B).getLast? = some "" then (A ++ B).dropLast else A ++ B) = A ++ C := by
  by_cases h : (A ++ B).getLast? = some ""
  · exact ⟨B.dropLast, by rw [if_pos h]; simp [List.dropLast_append_of_ne_nil, hB]⟩
  · exact ⟨B, by rw [if_neg h]⟩

lemma to_markdown_lines (d : Deck) (hkv : ∀ p ∈ d.frontKVs, goodKV p)
    (honl : ∀ c ∈ (Deck.to_markdown d).data, pyBrk c = true → c = '\n') :
    ∃ restL, pySplitlines (Deck.to_markdown d)
      = FRONT_MATTER_MARK :: ((d.frontKVs.map renderKV) ++ FRONT_MATTER_MARK :: restL) := by
  have hfm_nl : ∀ l ∈ (FRONT_MATTER_MARK :: (d.frontKVs.map renderKV)
      ++ [FRONT_MATTER_MARK]).map String.data, '\n' ∉ l := by
    intro l hl
    rcases List.mem_map.mp hl with ⟨s, hs, rfl⟩
    rcases List.mem_cons.mp hs with rfl | hs2
    · decide
    · rcases List.mem_append.mp hs2 with hs3 | hs3
      · rcases List.mem_map.mp hs3 with ⟨p, hp, rfl⟩
        exact renderKV_no_nl p (hkv p hp)
      · rw [show s = FRONT_MATTER_MARK by simpa using hs3]
        decide
  have hdata : (Deck.to_markdown d).data
      = intercalateC ['\n'] ((FRONT_MATTER_MARK :: (d.frontKVs.map renderKV)
          ++ [FRONT_MATTER_MARK]).map String.data)
        ++ '\n' :: (intercalateC ['\n'] ((("\n" :: d.bodyLines)).map String.data)
          ++ ['\n']) := by
    show (joinLines _ ++ "\n").data = _
    rw [data_append]
    show intercalateC ['\n'] _ ++ ['\n'] = _
    rw [show ((FRONT_MATTER_MARK :: (d.frontKVs.map renderKV) ++ [FRONT_MATTER_MARK])
        ++ ["\n"] ++ d.bodyLines).map String.data
        = (FRONT_MATTER_MARK.data :: ((d.frontKVs.map renderKV)
            ++ [FRONT_MATTER_MARK]).map String.data) ++ (("\n" :: d.bodyLines).map
            String.data) by
      simp]
    rw [intercalateC_cons_append _ _ _ _ (by simp)]
    rw [show (FRONT_MATTER_MARK :: (d.frontKVs.map renderKV)
        ++ [FRONT_MATTER_MARK]).map String.data
        = FRONT_MATTER_MARK.data :: ((d.frontKVs.map renderKV)
            ++ [FRONT_MATTER_MARK]).map String.data by simp]
    simp [List.append_assoc]
  have hsplit : splitOnChar '\n' (Deck.to_markdown d).data
      = ((FRONT_MATTER_MARK :: (d.frontKVs.map renderKV) ++ [FRONT_MATTER_MARK]).map
          String.data)
        ++ splitOnChar '\n' (intercalateC ['\n'] ((("\n" :: d.bodyLines)).map String.data)
            ++ ['\n']) := by
    rw [hdata]
    exact split_intercalate _ (by simp) hfm_nl _
  rw [pySplitlines_eq_nl _ honl]
  unfold nlSplitlines
  rw [hsplit, List.map_append, map_mk_data]
  obtain ⟨C, hC⟩ := splitlines_if_shape
    (FRONT_MATTER_MARK :: (d.frontKVs.map renderKV) ++ [FRONT_MATTER_MARK])
    ((splitOnChar '\n' (intercalateC ['\n'] ((("\n" :: d.bodyLines)).map String.data)
        ++ ['\n'])).map (fun dd => (⟨dd⟩ : String)))
    (by
      simp only [ne_eq, List.map_eq_nil_iff]
      exact splitOnChar_ne_nil _ _)
  refine ⟨C, ?_⟩
  rw [hC]
  simp [List.append_assoc]

lemma splitCsv_join (cs : List String) (h : ∀ c ∈ cs, wfColorB c = true) (hne : cs ≠ []) :
    splitCsv (joinCommaSpace cs) = cs := by
  induction cs with
  | nil => exact absurd rfl hne
  | cons x t ih =>
    have hx := wfColor_parts x (h x (by simp))
    cases t with
    | nil =>
      unfold splitCsv
      rw [if_neg (by
        intro he
        have h2 := congrArg String.data he
        exact hx.1 h2)]
      rw [show (joinCommaSpace [x]).data = x.data from rfl,
        splitOnChar_of_not_mem _ _ hx.2.2]
      simp only [List.map_cons, List.map_nil, wfVal_strip x hx.2.1]
      rw [List.filter_cons_of_pos (by simpa using hx.1), List.filter_nil]
      rfl
    | cons y u =>
      have hih := ih (fun c hc => h c (by simp [hc])) (by simp)
      have hvdata : (joinCommaSpace (x :: y :: u)).data
          = x.data ++ ',' :: ' ' :: (joinCommaSpace (y :: u)).data := by
        show intercalateC [',', ' '] (x.data :: (y :: u).map String.data) = _
        simp only [List.map_cons, intercalateC]
        show (x.data ++ [',', ' ']) ++ intercalateC [',', ' ']
            (y.data :: u.map String.data) = _
        simp only [List.append_assoc, List.cons_append, List.nil_append]
        rfl
      unfold splitCsv
      rw [if_neg (by
        intro he
        have h2 := congrArg String.data he
        rw [hvdata] at h2
        simp at h2)]
      rw [hvdata, splitOnChar_append_cons _ _ _ hx.2.2]
      obtain ⟨h0, t0, hJ⟩ : ∃ h0 t0,
          splitOnChar ',' (joinCommaSpace (y :: u)).data = h0 :: t0 := by
        cases hs : splitOnChar ',' (joinCommaSpace (y :: u)).data with
        | nil => exact absurd hs (splitOnChar_ne_nil _ _)
        | cons a b => exact ⟨a, b, rfl⟩
      have hsplit2 : splitOnChar ',' (' ' :: (joinCommaSpace (y :: u)).data)
          = (' ' :: h0) :: t0 := by
        simp only [splitOnChar, if_neg (show ¬ (' ' = ',') by decide)]
        rw [hJ]
      rw [hsplit2]
      unfold splitCsv at hih
      rw [if_neg (by
        intro he
        have h2 := congrArg String.data he
        exact intercalate_ne_nil _ _ _
          (wfColor_parts y (h y (by simp))).1 h2)] at hih
      rw [hJ] at hih
      simp only [List.map_cons] at hih ⊢
      rw [wfVal_strip x hx.2.1, stripL_cons_ws ' ' h0 (by decide),
        List.filter_cons_of_pos (by simpa using hx.1), List.map_cons]
      rw [hih]

lemma from_file_of_lines (text stem : String) (rest : List String)
    (hl : pySplitlines text = FRONT_MATTER_MARK :: rest) :
    Deck.from_file text stem = (fun metadata =>
      { name := match dictGet metadata "name" with
          | some v => if v = "" then stemSpaces stem else v
          | none => stemSpaces stem
        commander := (dictGet metadata "commander").getD "Unknown"
        colors := splitCsv ((dictGet metadata "colors").getD "")
        theme := dictGet metadata "theme"
        created := dictGet metadata "created"
        updated := dictGet metadata "updated"
        notes := dictGet metadata "notes"
        format := (dictGet metadata "format").getD "Commander"
        path := some stem } : List (String × String) → Deck) (scanMeta rest []) := by
  unfold Deck.from_file
  rw [hl]
  rfl

lemma kvs_not_mem_of (d : Deck) (k : String)
    (h1 : k ≠ "name") (h2 : k ≠ "commander") (h3 : k ≠ "format")
    (hcol : k = "colors" → d.colors = [])
    (hthe : k = "theme" → d.theme = none)
    (hcre : k = "created" → d.created = none)
    (hupd : k = "updated" → d.updated = none)
    (hnot : k = "notes" → d.notes = none) :
    ∀ p ∈ d.frontKVs, p.1 ≠ k := by
  intro p hp he
  rcases kvs_mem d p hp with he2 | he2 | ⟨hc, he2⟩ | ⟨t, ht, htn, he2⟩ | ⟨_, he2⟩
      | ⟨t, ht, htn, he2⟩ | ⟨t, ht, htn, he2⟩ | ⟨t, ht, htn, he2⟩ <;> subst he2
  · exact h1 he.symm
  · exact h2 he.symm
  · rw [hcol he.symm] at hc
    exact hc rfl
  · rw [hthe he.symm] at ht
    cases ht
  · exact h3 he.symm
  · rw [hcre he.symm] at ht
    cases ht
  · rw [hupd he.symm] at ht
    cases ht
  · rw [hnot he.symm] at ht
    cases ht

/-- C7: for every record built purely from well-formed display fields
(nonempty name, format and present optional values, no whitespace at
either end of a value and no line-break character anywhere inside one,
comma-free nonempty color codes), deserializing the serialized text
reproduces name, commander, colors, theme, notes, created, updated, and
format unchanged. -/
theorem C7_round_trip (d : Deck) (h : wfDeckB d = true) (stem : String) :
    (Deck.from_file (Deck.to_markdown d) stem).name = d.name
    ∧ (Deck.from_file (Deck.to_markdown d) stem).commander = d.commander
    ∧ (Deck.from_file (Deck.to_markdown d) stem).colors = d.colors
    ∧ (Deck.from_file (Deck.to_markdown d) stem).theme = d.theme
    ∧ (Deck.from_file (Deck.to_markdown d) stem).notes = d.notes
    ∧ (Deck.from_file (Deck.to_markdown d) stem).created = d.created
    ∧ (Deck.from_file (Deck.to_markdown d) stem).updated = d.updated
    ∧ (Deck.from_file (Deck.to_markdown d) stem).format = d.format := by
  obtain ⟨hn1, hn2, hcm, hf1, hf2, hth, hcr, hup, hno, hcol⟩ := wfDeck_parts d h
  have hkv := goodKV_of_wf d h
  obtain ⟨restL, heq⟩ := to_markdown_lines d hkv (to_markdown_only_nl d h)
  have hnd := kvs_keys_nodup d
  rw [from_file_of_lines _ stem _ heq, scanMeta_kvs d.frontKVs restL [] hkv]
  set M := d.frontKVs.foldl (fun m p => dictSet m p.1 p.2) ([] : List (String × String))
    with hM
  have hname : dictGet M "name" = some d.name :=
    dictGet_fold_mem _ _ _ _ hnd (by simp [Deck.frontKVs])
  have hcmd : dictGet M "commander" = some d.commander :=
    dictGet_fold_mem _ _ _ _ hnd (by simp [Deck.frontKVs])
  have hfmt : dictGet M "format" = some d.format :=
    dictGet_fold_mem _ _ _ _ hnd (by simp [Deck.frontKVs, hf1])
  have hcolget : dictGet M "colors" = (if d.colors = [] then none
      else some (joinCommaSpace d.colors)) := by
    by_cases hc : d.colors = []
    · rw [if_pos hc, dictGet_fold_not_mem _ _ _ (kvs_not_mem_of d "colors"
        (by decide) (by decide) (by decide) (fun _ => hc)
        (fun h2 => absurd h2 (by decide)) (fun h2 => absurd h2 (by decide))
        (fun h2 => absurd h2 (by decide)) (fun h2 => absurd h2 (by decide)))]
      rfl
    · rw [if_neg hc]
      exact dictGet_fold_mem _ _ _ _ hnd (by simp [Deck.frontKVs, hc])
  have hoptGet : ∀ (key : String) (sel : Deck → Option String),
      key = "theme" ∧ sel = Deck.theme ∨ key = "created" ∧ sel = Deck.created
        ∨ key = "updated" ∧ sel = Deck.updated ∨ key = "notes" ∧ sel = Deck.notes →
      wfOptB (sel d) = true → dictGet M key = sel d := by
    intro key sel hks hwf
    cases hsel : sel d with
    | none =>
      rw [dictGet_fold_not_mem _ _ _ (kvs_not_mem_of d key
        (by rcases hks with ⟨rfl, _⟩ | ⟨rfl, _⟩ | ⟨rfl, _⟩ | ⟨rfl, _⟩ <;> decide)
        (by rcases hks with ⟨rfl, _⟩ | ⟨rfl, _⟩ | ⟨rfl, _⟩ | ⟨rfl, _⟩ <;> decide)
        (by rcases hks with ⟨rfl, _⟩ | ⟨rfl, _⟩ | ⟨rfl, _⟩ | ⟨rfl, _⟩ <;> decide)
        (by rcases hks with ⟨rfl, rfl⟩ | ⟨rfl, rfl⟩ | ⟨rfl, rfl⟩ | ⟨rfl, rfl⟩ <;>
          intro h2 <;> first | exact absurd h2 (by decide) | exact hsel)
        (by rcases hks with ⟨rfl, rfl⟩ | ⟨rfl, rfl⟩ | ⟨rfl, rfl⟩ | ⟨rfl, rfl⟩ <;>
          intro h2 <;> first | exact absurd h2 (by decide) | exact hsel)
        (by rcases hks with ⟨rfl, rfl⟩ | ⟨rfl, rfl⟩ | ⟨rfl, rfl⟩ | ⟨rfl, rfl⟩ <;>
          intro h2 <;> first | exact absurd h2 (by decide) | exact hsel)
        (by rcases hks with ⟨rfl, rfl⟩ | ⟨rfl, rfl⟩ | ⟨rfl, rfl⟩ | ⟨rfl, rfl⟩ <;>
          intro h2 <;> first | exact absurd h2 (by decide) | exact hsel)
        (by rcases hks with ⟨rfl, rfl⟩ | ⟨rfl, rfl⟩ | ⟨rfl, rfl⟩ | ⟨rfl, rfl⟩ <;>
          intro h2 <;> first | exact absurd h2 (by decide) | exact hsel))]
      rfl
    | some t =>
      have htn := (wfOpt_some _ (hsel ▸ hwf) t rfl).1
      rcases hks with ⟨rfl, rfl⟩ | ⟨rfl, rfl⟩ | ⟨rfl, rfl⟩ | ⟨rfl, rfl⟩ <;>
        exact dictGet_fold_mem _ _ _ _ hnd (by simp [Deck.frontKVs, hsel, htn])
  have hthe : dictGet M "theme" = d.theme := hoptGet "theme" Deck.theme
    (Or.inl ⟨rfl, rfl⟩) hth
  have hcre : dictGet M "created" = d.created := hoptGet "created" Deck.created
    (Or.inr (Or.inl ⟨rfl, rfl⟩)) hcr
  have hupd : dictGet M "updated" = d.updated := hoptGet "updated" Deck.updated
    (Or.inr (Or.inr (Or.inl ⟨rfl, rfl⟩))) hup
  have hnot : dictGet M "notes" = d.notes := hoptGet "notes" Deck.notes
    (Or.inr (Or.inr (Or.inr ⟨rfl, rfl⟩))) hno
  refine ⟨?_, ?_, ?_, ?_, ?_, ?_, ?_, ?_⟩
  · show (match dictGet M "name" with
      | some v => if v = "" then stemSpaces stem else v
      | none => stemSpaces stem) = d.name
    rw [hname]
    simp [hn1]
  · show (dictGet M "commander").getD "Unknown" = d.commander
    rw [hcmd]
    rfl
  · show splitCsv ((dictGet M "colors").getD "") = d.colors
    rw [hcolget]
    by_cases hc : d.colors = []
    · rw [if_pos hc, hc]
      rfl
    · rw [if_neg hc]
      exact splitCsv_join d.colors hcol hc
  · exact hthe
  · exact hnot
  · exact hcre
  · exact hupd
  · show (dictGet M "format").getD "Commander" = d.format
    rw [hfmt]
    rfl

/-- Witness for C7: the deck of the round-trip test reloads with every
display field intact. -/
theorem C7_round_trip_witness :
    (Deck.from_file (Deck.to_markdown
      { name := "Limit Break", commander := "Cloud, Ex-SOLDIER",
        colors := ["W", "U", "B", "G"], theme := some "Superfriends control",
        notes := some "Protect your walkers", created := some "2024-01-01",
        updated := some "2024-01-02" }) "limit-break").commander = "Cloud, Ex-SOLDIER" :=
  (C7_round_trip
    { name := "Limit Break", commander := "Cloud, Ex-SOLDIER",
      colors := ["W", "U", "B", "G"], theme := some "Superfriends control",
      notes := some "Protect your walkers", created := some "2024-01-01",
      updated := some "2024-01-02" } (by decide) "limit-break").2.1

/-- C4: in an import run with a rule set supplied that gets past entry
parsing and the overwrite guard, if validating the freshly written
record yields any violation then the operation fails with all the
violations joined into one message and the file at the target path is
deleted: after the failed import no file exists there. -/
theorem C4_import_all_or_nothing (resolver : Resolver) (r : CommanderRules)
    (fsBefore : Option String) (a : ImportArgs)
    (h1 : parse_import_rows a.card_text ≠ [])
    (h2 : ¬ (fsBefore.isSome ∧ a.overwrite = false))
    (pe : List (String × Nat) × List String)
    (h3 : parse_decklist (importMarkdown resolver a) = Except.ok pe)
    (h4 : (CommanderRules.validate r (importDeckRecord resolver a) pe.1 pe.2) ≠ []) :
    (import_deck resolver (some r) fsBefore a).fs = none
    ∧ (import_deck resolver (some r) fsBefore a).result
        = Except.error (joinSemi
            (CommanderRules.validate r (importDeckRecord resolver a) pe.1 pe.2)) := by
  have hstep : import_deck resolver (some r) fsBefore a
      = ⟨Except.error (joinSemi
          (CommanderRules.validate r (importDeckRecord resolver a) pe.1 pe.2)), none⟩ := by
    unfold import_deck
    rw [if_neg h1, if_neg h2]
    simp only [h3]
    rw [if_pos h4]
  exact ⟨by rw [hstep], by rw [hstep]⟩

/-- Witness for C4: importing a one-card list as a three-card deck fails
the size rule and leaves no file at the target path. -/
theorem C4_import_all_or_nothing_witness :
    (import_deck
      (fun q => if q = "Commander" then
          some { name := "Commander", color_identity := some ["W"] }
        else if q = "Plains" then some { name := "Plains" } else none)
      (some { deck_size := 3 }) none
      { deck_name := "Too Short", commander := "Commander", card_text := "Plains",
        today := "2024-01-01" }).fs = none :=
  (C4_import_all_or_nothing
    (fun q => if q = "Commander" then
        some { name := "Commander", color_identity := some ["W"] }
      else if q = "Plains" then some { name := "Plains" } else none)
    { deck_size := 3 } none
    { deck_name := "Too Short", commander := "Commander", card_text := "Plains",
      today := "2024-01-01" }
    (by decide) (by simp)
    ([("Commander", 1), ("Plains", 1)], ["Commander"])
    (by decide) (by decide)).1
